import Mathlib

/-
  Verification of the AiATC air-traffic-control routing engine.

  The development shallowly embeds the three Python modules of the
  repository:

  * bfs.py  — airport network graph with congestion / weather flags and a
              breadth-first shortest-hop router (namespace Bfs);
  * dfs.py  — depth-first emergency-landing search over aircraft snapshots
              (namespace Dfs);
  * dls.py  — depth-limited waypoint search with weather / traffic-zone
              feasibility and travel-time estimation (namespace Dls).

  Python numbers are modelled as rationals (the programs only ever add,
  subtract, multiply, compare and divide them).  Python dicts are modelled
  as insertion-ordered association lists, Python sets as Finsets.  The two
  great-circle distance functions (Haversine, transcendental) are modelled
  as abstract distance parameters, and every use of the global random
  number generator is modelled as an explicit input (a drawn value or a
  stream of drawn values), so each theorem quantifies over all possible
  draws.  Unbounded Python recursion / while loops are embedded with an
  explicit gas parameter; running out of gas is a distinguished outcome
  (the outer Option layer), never conflated with a result of the program.
-/

namespace AiATC

/-- Association-list lookup mirroring Python dict indexing: the first
    binding of the key wins (Python dicts have unique keys, so on the
    states built by the operations below this is exactly dict lookup). -/
def alookup {α : Type} : List (String × α) → String → Option α
  | [], _ => none
  | (k, v) :: rest, x => if x = k then some v else alookup rest x

/-- Membership test for a dict key, mirroring the Python test (k in d). -/
def hasKey {α : Type} (l : List (String × α)) (k : String) : Bool :=
  (alookup l k).isSome

/-- Assignment d[k] = v on an association list: replaces the value at an
    existing key, otherwise appends the new binding (Python dicts keep
    insertion order and append fresh keys at the end). -/
def dictSet {α : Type} (l : List (String × α)) (k : String) (v : α) :
    List (String × α) :=
  if hasKey l k then l.map (fun p => if p.1 = k then (k, v) else p)
  else l ++ [(k, v)]

/-- In-place update of the value stored at a key (used for Python list
    appends such as d[k].append(x)). -/
def dictModify {α : Type} (l : List (String × α)) (k : String) (f : α → α) :
    List (String × α) :=
  l.map (fun p => if p.1 = k then (p.1, f p.2) else p)

namespace Bfs

/-- Airport record from bfs.py. -/
structure Airport where
  code : String
  name : String
  is_hub : Bool
  facilities : List String
deriving DecidableEq

/-- Adjacency record stored by bfs.py:
    (destination code, distance, fuel efficiency, congestion level). -/
abbrev Route := String × ℚ × ℚ × ℚ

/-- State of the AirportNetwork class from bfs.py.  The airports and
    routes dicts are insertion-ordered association lists; the two sets of
    directed hazard pairs are Finsets. -/
structure AirportNetwork where
  airports : List (String × Airport)
  routes : List (String × List Route)
  congested_routes : Finset (String × String)
  weather_affected_routes : Finset (String × String)
deriving DecidableEq

/-- Freshly constructed AirportNetwork(). -/
def emptyNetwork : AirportNetwork :=
  { airports := [], routes := [], congested_routes := ∅,
    weather_affected_routes := ∅ }

/-- Adjacency list of a code, defaulting to the empty list for unknown
    codes exactly as self.routes.get(code, []) does. -/
def routesOf (net : AirportNetwork) (code : String) : List Route :=
  (alookup net.routes code).getD []

/-- Method add_airport of bfs.py: store the airport under its code and
    make sure an (initially empty) adjacency entry exists. -/
def add_airport (net : AirportNetwork) (airport : Airport) : AirportNetwork :=
  { net with
    airports := dictSet net.airports airport.code airport,
    routes :=
      if hasKey net.routes airport.code then net.routes
      else net.routes ++ [(airport.code, [])] }

/-- Helper for add_route: the guard "if code not in self.routes:
    self.routes[code] = []". -/
def ensureKey (l : List (String × List Route)) (k : String) :
    List (String × List Route) :=
  if hasKey l k then l else l ++ [(k, [])]

/-- Method add_route of bfs.py.  The base congestion level is drawn once
    by random.randint(0, 3) in the source and used for both directions; it
    is modelled as the explicit argument congestion. -/
def add_route (net : AirportNetwork) (origin destination : String)
    (distance fuel_efficiency congestion : ℚ) : AirportNetwork :=
  let r1 := ensureKey (ensureKey net.routes origin) destination
  let r2 := dictModify r1 origin
    (fun l => l ++ [(destination, distance, fuel_efficiency, congestion)])
  let r3 := dictModify r2 destination
    (fun l => l ++ [(origin, distance, fuel_efficiency, congestion)])
  { net with routes := r3 }

/-- Method update_congestion of bfs.py: add or discard both directed
    pairs. -/
def update_congestion (net : AirportNetwork) (origin destination : String)
    (is_congested : Bool) : AirportNetwork :=
  if is_congested then
    { net with
        congested_routes := insert (destination, origin)
          (insert (origin, destination) net.congested_routes) }
  else
    { net with
        congested_routes := Finset.erase
          (net.congested_routes.erase (origin, destination))
          (destination, origin) }

/-- Method update_weather of bfs.py: add or discard both directed pairs. -/
def update_weather (net : AirportNetwork) (origin destination : String)
    (is_affected : Bool) : AirportNetwork :=
  if is_affected then
    { net with
        weather_affected_routes := insert (destination, origin)
          (insert (origin, destination) net.weather_affected_routes) }
  else
    { net with
        weather_affected_routes := Finset.erase
          (net.weather_affected_routes.erase (origin, destination))
          (destination, origin) }

/-- Hazard test performed inside get_neighbors for a directed pair. -/
def hazardous (net : AirportNetwork) (a b : String) : Prop :=
  (a, b) ∈ net.congested_routes ∨ (a, b) ∈ net.weather_affected_routes

instance (net : AirportNetwork) (a b : String) :
    Decidable (hazardous net a b) := by
  unfold hazardous; infer_instance

/-- Sort order used by get_neighbors when prioritize_fuel is set: the
    Python key (-fuel_efficiency, distance), i.e. fuel efficiency
    descending then distance ascending. -/
def fuelSortLE (a b : Route) : Prop :=
  b.2.2.1 < a.2.2.1 ∨ (a.2.2.1 = b.2.2.1 ∧ a.2.1 ≤ b.2.1)

instance : DecidableRel fuelSortLE := fun a b => by
  unfold fuelSortLE; infer_instance

/-- Method get_neighbors of bfs.py: filter out congested or
    weather-affected directed pairs when avoid_congestion is set, then
    optionally stable-sort by the fuel key (Python list.sort is a stable
    sort, modelled by insertion sort). -/
def get_neighbors (net : AirportNetwork) (airport_code : String)
    (avoid_congestion prioritize_fuel : Bool) : List Route :=
  let neighbors := (routesOf net airport_code).filter
    (fun r => !(avoid_congestion && decide (hazardous net airport_code r.1)))
  if prioritize_fuel then List.insertionSort fuelSortLE neighbors
  else neighbors

/-- Setup operations offered by bfs.py for building a network. -/
inductive NetOp
  | addAirport (airport : Airport)
  | addRoute (origin destination : String)
      (distance fuel_efficiency congestion : ℚ)

/-- Interpretation of one setup operation. -/
def applyOp (net : AirportNetwork) : NetOp → AirportNetwork
  | .addAirport a => add_airport net a
  | .addRoute o d dist eff cong => add_route net o d dist eff cong

/-- Network obtained by running a sequence of setup operations on a fresh
    AirportNetwork(). -/
def buildNetwork (ops : List NetOp) : AirportNetwork :=
  ops.foldl applyOp emptyNetwork

/-- Symmetry invariant on stored adjacency lists: every stored directed
    edge record has a mirror record with identical distance, fuel
    efficiency and congestion. -/
def RoutesSymmetric (net : AirportNetwork) : Prop :=
  ∀ a b d f c, (b, d, f, c) ∈ routesOf net a → (a, d, f, c) ∈ routesOf net b

/-- Concrete two-airport network used by concrete checks: airports A and
    B with a single route of distance 1, fuel efficiency 5 and base
    congestion 0, no hazard flags. -/
def exampleNet : AirportNetwork :=
  add_route
    (add_airport (add_airport emptyNetwork ⟨"A", "Alpha", false, []⟩)
      ⟨"B", "Beta", false, []⟩)
    "A" "B" 1 5 0

/-- The same two-airport network with the congestion flag on (A, B)
    already set before any round trip starts. -/
def exampleNetCongested : AirportNetwork :=
  update_congestion exampleNet "A" "B" true

/-- Frontier entry of bfs_shortest_path: (current, path, distance_so_far,
    fuel_consumption). -/
structure Entry where
  current : String
  path : List String
  dist : ℚ
  fuel : ℚ
deriving DecidableEq

/-- Fuel consumed on one traversed edge, inversely proportional to the
    efficiency rating: distance * (11 - fuel_efficiency) / 10. -/
def fuelUsed (dist eff : ℚ) : ℚ := dist * (11 - eff) / 10

/-- Inner for-loop of the BFS over the neighbor records of a dequeued
    entry: every not-yet-visited destination is enqueued (in neighbor
    order) and marked visited immediately.  Returns the appended entries
    and the grown visited set. -/
def processNeighbors (e : Entry) :
    List Route → Finset String → List Entry × Finset String
  | [], v => ([], v)
  | r :: rs, v =>
    if r.1 ∈ v then processNeighbors e rs v
    else
      let res := processNeighbors e rs (insert r.1 v)
      (⟨r.1, e.path ++ [r.1], e.dist + r.2.1,
          e.fuel + fuelUsed r.2.1 r.2.2.1⟩ :: res.1,
        res.2)

/-- While loop of bfs_shortest_path, gas-indexed: none is gas exhaustion
    (proved impossible below at the gas used by the wrapper), some none is
    the no-path return (None, inf, inf) of the source, and some (some
    (path, distance, fuel)) is the return on the goal test. -/
def bfsAux (net : AirportNetwork) (goal : String) (avoid prio : Bool) :
    ℕ → List Entry → Finset String → Option (Option (List String × ℚ × ℚ))
  | 0, _, _ => none
  | Nat.succ _, [], _ => some none
  | Nat.succ gas, e :: rest, v =>
    if e.current = goal then some (some (e.path, e.dist, e.fuel))
    else
      let pn := processNeighbors e (get_neighbors net e.current avoid prio) v
      bfsAux net goal avoid prio gas (rest ++ pn.1) pn.2

/-- Every destination code stored anywhere in the routes dict: besides
    the start node these are the only nodes BFS can ever enqueue. -/
def allDests (net : AirportNetwork) : Finset String :=
  ((net.routes.map (fun q => q.2.map (fun r => r.1))).join).toFinset

/-- Gas that always suffices for the BFS while loop (one more than the
    initial frontier size plus the number of enqueueable nodes). -/
def bfsGas (net : AirportNetwork) : ℕ := (allDests net).card + 2

/-- Method bfs_shortest_path of bfs.py.  The sentinel return
    (None, float(inf), float(inf)) is modelled as none; the start node is
    seeded into the frontier with path [start] and zero totals, and is
    visited from the start. -/
def bfs_shortest_path (net : AirportNetwork) (start goal : String)
    (avoid_congestion prioritize_fuel : Bool) :
    Option (Option (List String × ℚ × ℚ)) :=
  if (alookup net.airports start).isNone
      ∨ (alookup net.airports goal).isNone then
    some none
  else
    bfsAux net goal avoid_congestion prioritize_fuel (bfsGas net)
      [⟨start, [start], 0, 0⟩] {start}

/-- Destination codes reachable in one hop through the active edge
    filter; prioritize_fuel only reorders get_neighbors, so membership is
    taken at prioritize_fuel = false. -/
def neighborCodes (net : AirportNetwork) (avoid : Bool) (a : String) :
    List String :=
  (get_neighbors net a avoid false).map (fun r => r.1)

/-- Walks through the filtered graph, counted in edges. -/
inductive Walk (net : AirportNetwork) (avoid : Bool) :
    String → String → ℕ → Prop
  | refl (a : String) : Walk net avoid a a 0
  | step {a b c : String} {n : ℕ} : b ∈ neighborCodes net avoid a →
      Walk net avoid b c n → Walk net avoid a c (n + 1)

/-- Edge-record accounting along a path: consecutive stored edge records
    exist whose distances sum to the second argument and whose per-edge
    fuel costs fuelUsed distance efficiency sum to the third. -/
inductive RouteChain (net : AirportNetwork) : List String → ℚ → ℚ → Prop
  | single (a : String) : RouteChain net [a] 0 0
  | cons {a b : String} {rest : List String} {D F d f c : ℚ} :
      (b, d, f, c) ∈ routesOf net a → RouteChain net (b :: rest) D F →
      RouteChain net (a :: b :: rest) (d + D) (fuelUsed d f + F)

/-- Wellformedness of a frontier entry: its path runs from start to its
    current node, is a minimum-length walk under the active filter, and
    its accumulated distance and fuel follow an edge-record chain. -/
def EntryWF (net : AirportNetwork) (avoid : Bool) (start : String)
    (e : Entry) : Prop :=
  e.path.head? = some start ∧ e.path.getLast? = some e.current ∧
  Walk net avoid start e.current (e.path.length - 1) ∧
  (∀ n, Walk net avoid start e.current n → e.path.length - 1 ≤ n) ∧
  RouteChain net e.path e.dist e.fuel

/-- Invariant of the BFS while loop: entries are wellformed, the frontier
    consists of at most two consecutive levels in order, every node with a
    walk shorter than the head entry is already visited, every visited
    node is either still queued or fully expanded, and the goal, once
    visited, is still queued (otherwise the loop would have returned). -/
structure BfsInv (net : AirportNetwork) (avoid prio : Bool)
    (start goal : String) (q : List Entry) (v : Finset String) : Prop where
  wf : ∀ e ∈ q, EntryWF net avoid start e
  levels : ∃ L q1 q2, q = q1 ++ q2 ∧ (∀ e ∈ q1, e.path.length = L)
    ∧ (∀ e ∈ q2, e.path.length = L + 1)
  frontier : ∀ e0 rest, q = e0 :: rest →
    ∀ y n, Walk net avoid start y n → n + 1 ≤ e0.path.length → y ∈ v
  expanded : ∀ x ∈ v, (∃ e ∈ q, e.current = x)
    ∨ ∀ z ∈ neighborCodes net avoid x, z ∈ v
  goal_pending : goal ∈ v → ∃ e ∈ q, e.current = goal
  current_mem : ∀ e ∈ q, e.current ∈ v
  start_mem : start ∈ v

end Bfs

namespace Dfs

/-- Position named tuple from dfs.py (latitude, longitude). -/
structure Position where
  latitude : ℚ
  longitude : ℚ
deriving DecidableEq

/-- EmergencyType named tuple from dfs.py. -/
structure EmergencyType where
  name : String
  severity : ℚ
  required_facilities : List String
deriving DecidableEq

/-- Airport class from dfs.py.  The facilities dict is an association
    list of named boolean capabilities. -/
structure Airport where
  id : String
  name : String
  position : Position
  runway_length : ℚ
  has_control_tower : Bool
  facilities : List (String × Bool)
  weather_condition : String
  is_decoy : Bool
deriving DecidableEq

/-- Python expression airport.facilities.get(f, False). -/
def facilityGet (a : Airport) (f : String) : Bool :=
  (alookup a.facilities f).getD false

/-- Method has_medical_facilities of dfs.py. -/
def has_medical_facilities (a : Airport) : Bool := facilityGet a "medical"

/-- Method has_maintenance_capabilities of dfs.py. -/
def has_maintenance_capabilities (a : Airport) : Bool :=
  facilityGet a "maintenance"

/-- Method has_fire_response of dfs.py. -/
def has_fire_response (a : Airport) : Bool := facilityGet a "fire_response"

/-- Method is_limited_facility of dfs.py: at most two of the four major
    facilities are available. -/
def is_limited_facility (a : Airport) : Bool :=
  decide ((["medical", "maintenance", "fire_response", "refueling"].countP
    (fun f => facilityGet a f)) ≤ 2)

/-- Aircraft class from dfs.py.  Fuel is in minutes of flight time; the
    constructor leaves emergency_status as None and declare_emergency
    sets it. -/
structure Aircraft where
  id : String
  position : Position
  fuel_remaining : ℚ
  aircraft_type : String
  emergency_status : Option EmergencyType
deriving DecidableEq

/-- Method can_reach_airport of dfs.py: 1 distance unit = 1 minute of
    fuel.  The Haversine function calculate_distance uses transcendental
    functions, so it is modelled throughout this namespace by the abstract
    distance parameter dist. -/
def can_reach_airport (dist : Position → Position → ℚ) (ac : Aircraft)
    (a : Airport) : Bool :=
  decide (dist ac.position a.position ≤ ac.fuel_remaining)

/-- Function sort_by_distance of dfs.py: Python sorted() is a stable
    sort by the distance key, modelled by insertion sort. -/
def sort_by_distance (dist : Position → Position → ℚ) (pos : Position)
    (airports : List Airport) : List Airport :=
  List.insertionSort
    (fun a b => dist pos a.position ≤ dist pos b.position) airports

/-- Python str.lower(), modelled character by character (structurally,
    so that it evaluates on concrete inputs). -/
def strLower (s : String) : String := ⟨s.data.map Char.toLower⟩

/-- Runway-length table of meets_minimum_requirements, with the dict
    default 2000 for unknown type strings. -/
def requiredRunwayLength (t : String) : ℚ :=
  if t = "small" then 1000
  else if t = "medium" then 2000
  else if t = "large" then 3000
  else if t = "jumbo" then 3500
  else 2000

/-- Function meets_minimum_requirements of dfs.py: sufficient runway for
    the lower-cased aircraft type and weather not in the disqualifying
    set. -/
def meets_minimum_requirements (a : Airport) (ac : Aircraft) : Bool :=
  let required_length := requiredRunwayLength (strLower ac.aircraft_type)
  let weather_suitable :=
    decide (a.weather_condition ∉ ["severe_storm", "hurricane", "tornado"])
  decide (required_length ≤ a.runway_length) && weather_suitable

/-- Function verify_emergency_landing_capability of dfs.py.  The source
    draws random.random() and rejects a decoy when the draw is below 0.5;
    the outcome of that draw is modelled by the Boolean decoyReject. -/
def verify_emergency_landing_capability (decoyReject : Bool) (a : Airport)
    (e : EmergencyType) : Bool :=
  if a.is_decoy && decoyReject then false
  else e.required_facilities.all (fun f => facilityGet a f)

/-- Function is_suitable_for_emergency of dfs.py, with the randomized
    decoy-verification outcome passed in as decoyReject. -/
def is_suitable_for_emergency (dist : Position → Position → ℚ)
    (decoyReject : Bool) (a : Airport) (ac : Aircraft) : Bool :=
  if !can_reach_airport dist ac a then false
  else if !meets_minimum_requirements a ac then false
  else
    match ac.emergency_status with
    | none => true
    | some et =>
      if et.name = "medical" && !has_medical_facilities a then false
      else if et.name = "fire" && !has_fire_response a then false
      else if et.name = "mechanical" && !has_maintenance_capabilities a then
        false
      else if is_limited_facility a || a.is_decoy then
        verify_emergency_landing_capability decoyReject a et
      else true

/-- Hypothetical aircraft snapshot built inside the loop of
    emergency_landing_dfs: moved to the midpoint toward the candidate,
    with fuel reduced by the distance travelled and the emergency status
    carried over. -/
def midpointAircraft (dist : Position → Position → ℚ) (ac : Aircraft)
    (a : Airport) : Aircraft :=
  let new_position : Position :=
    ⟨(ac.position.latitude + a.position.latitude) / 2,
      (ac.position.longitude + a.position.longitude) / 2⟩
  let distance_traveled := dist ac.position new_position
  { ac with
      position := new_position,
      fuel_remaining := ac.fuel_remaining - distance_traveled }

/-- Loop body of emergency_landing_dfs over the distance-sorted airport
    list.  The recursive call of the source is abstracted as step so the
    whole search is structural recursion on gas; the visited set and the
    random-draw counter are threaded exactly as Python mutates its shared
    visited set and consumes the global random stream.  The draw counter
    advances at every suitability check (a draw is only consumed on decoy
    verification in the source, but every theorem below quantifies over
    all streams, for which the two disciplines realise the same result
    sets). -/
def emergencyDfsLoop (dist : Position → Position → ℚ) (coins : ℕ → Bool)
    (step : Aircraft → Finset String → ℕ → ℕ →
      Option (Option Airport × Finset String × ℕ))
    (ac : Aircraft) (depth : ℕ) :
    List Airport → Finset String → ℕ →
      Option (Option Airport × Finset String × ℕ)
  | [], visited, ctr => some (none, visited, ctr)
  | a :: rest, visited, ctr =>
    if a.id ∈ visited then
      emergencyDfsLoop dist coins step ac depth rest visited ctr
    else
      let visited1 := insert a.id visited
      if is_suitable_for_emergency dist (coins ctr) a ac then
        some (some a, visited1, ctr + 1)
      else
        let new_aircraft := midpointAircraft dist ac a
        if new_aircraft.fuel_remaining ≤ 0 then
          emergencyDfsLoop dist coins step ac depth rest visited1 (ctr + 1)
        else
          match step new_aircraft visited1 (depth + 1) (ctr + 1) with
          | none => none
          | some (some r, visited2, ctr2) => some (some r, visited2, ctr2)
          | some (none, visited2, ctr2) =>
            emergencyDfsLoop dist coins step ac depth rest visited2 ctr2

/-- Function emergency_landing_dfs of dfs.py as a gas-indexed recursion:
    none means the gas bound was hit before the source recursion
    completed, some r means the source returns r (the found airport or
    None) together with the final visited set and draw counter. -/
def emergencyDfsAux (dist : Position → Position → ℚ) (coins : ℕ → Bool)
    (airports : List Airport) (max_depth : Option ℕ) :
    ℕ → Aircraft → Finset String → ℕ → ℕ →
      Option (Option Airport × Finset String × ℕ)
  | 0, _, _, _, _ => none
  | Nat.succ gas, ac, visited, depth, ctr =>
    match max_depth with
    | some md =>
      if md ≤ depth then some (none, visited, ctr)
      else
        emergencyDfsLoop dist coins
          (emergencyDfsAux dist coins airports max_depth gas) ac depth
          (sort_by_distance dist ac.position airports) visited ctr
    | none =>
      emergencyDfsLoop dist coins
        (emergencyDfsAux dist coins airports max_depth gas) ac depth
        (sort_by_distance dist ac.position airports) visited ctr

/-- Distinct airport identifiers of a list of airports. -/
def airportIds (airports : List Airport) : Finset String :=
  (airports.map (fun a => a.id)).toFinset

/-- Top-level emergency_landing_dfs(aircraft, airports, max_depth), run
    with gas one larger than the number of distinct airport identifiers
    (which the termination theorem proves sufficient).  The result some r
    means the source call returns r. -/
def emergency_landing_dfs (dist : Position → Position → ℚ)
    (coins : ℕ → Bool) (ac : Aircraft) (airports : List Airport)
    (max_depth : Option ℕ) : Option (Option Airport) :=
  (emergencyDfsAux dist coins airports max_depth
    ((airportIds airports).card + 1) ac ∅ 0 0).map (fun r => r.1)

/-- Taxicab distance used to instantiate the abstract distance parameter
    in concrete checks (nonnegative like the Haversine distance). -/
def taxiDist (p q : Position) : ℚ :=
  |p.latitude - q.latitude| + |p.longitude - q.longitude|

/-- Concrete single-airport scenario for concrete checks: a clear-weather
    hub with every facility. -/
def exampleAirport : Airport :=
  { id := "DEL", name := "Indira Gandhi International",
    position := ⟨28, 77⟩, runway_length := 4430,
    has_control_tower := true,
    facilities :=
      [("medical", true), ("maintenance", true), ("fire_response", true),
        ("refueling", true)],
    weather_condition := "clear", is_decoy := false }

/-- Concrete aircraft with no declared emergency near the example
    airport. -/
def exampleAircraft : Aircraft :=
  { id := "AI302", position := ⟨28, 76⟩, fuel_remaining := 200,
    aircraft_type := "large", emergency_status := none }

end Dfs

namespace Dls

/-- Airport class from dls.py. -/
structure Airport where
  code : String
  name : String
  city : String
  lat : ℚ
  lon : ℚ
  elevation : ℚ
  runway_length : ℚ
  emergency_capabilities : Bool
deriving DecidableEq

/-- WeatherCondition class from dls.py: severity 0-10, a rectangular
    affected area given by two corners, and an altitude band. -/
structure WeatherCondition where
  severity : ℚ
  affected_area : (ℚ × ℚ) × (ℚ × ℚ)
  min_altitude : ℚ
  max_altitude : ℚ
deriving DecidableEq

/-- AirTrafficZone class from dls.py: a rectangular area, a congestion
    level 0-10 and an altitude band. -/
structure AirTrafficZone where
  name : String
  area : (ℚ × ℚ) × (ℚ × ℚ)
  congestion_level : ℚ
  min_altitude : ℚ
  max_altitude : ℚ
deriving DecidableEq

/-- Containment of a point in a rectangular area, as written twice inside
    affects_path (min/max of the two corner coordinates). -/
def inArea (area : (ℚ × ℚ) × (ℚ × ℚ)) (lat lon : ℚ) : Bool :=
  decide (min area.1.1 area.2.1 ≤ lat ∧ lat ≤ max area.1.1 area.2.1
    ∧ min area.1.2 area.2.2 ≤ lon ∧ lon ≤ max area.1.2 area.2.2)

/-- Method affects_path of WeatherCondition: false outside the altitude
    band, otherwise endpoint containment only (the source comments that no
    true segment intersection is computed and falls through to False). -/
def affects_path (w : WeatherCondition) (start_point end_point : ℚ × ℚ)
    (altitude : ℚ) : Bool :=
  if altitude < w.min_altitude ∨ altitude > w.max_altitude then false
  else
    inArea w.affected_area start_point.1 start_point.2
      || inArea w.affected_area end_point.1 end_point.2

/-- Method get_delay_factor of AirTrafficZone: 1.0 outside the altitude
    band, otherwise 1 + (congestion_level / 10) * (1.5 - altitude /
    max_altitude). -/
def get_delay_factor (z : AirTrafficZone) (altitude : ℚ) : ℚ :=
  if altitude < z.min_altitude ∨ altitude > z.max_altitude then 1
  else
    let altitude_factor := 3/2 - altitude / z.max_altitude
    1 + (z.congestion_level / 10) * altitude_factor

/-- State of the FlightPathPlanner class from dls.py (the three constant
    rate/threshold fields set in the constructor are never read by the
    embedded operations and are omitted). -/
structure FlightPathPlanner where
  airports : List (String × Airport)
  weather_conditions : List WeatherCondition
  traffic_zones : List AirTrafficZone
deriving DecidableEq

/-- Method add_airport of FlightPathPlanner. -/
def add_airport (p : FlightPathPlanner) (a : Airport) : FlightPathPlanner :=
  { p with airports := dictSet p.airports a.code a }

/-- Method add_weather_condition of FlightPathPlanner. -/
def add_weather_condition (p : FlightPathPlanner) (w : WeatherCondition) :
    FlightPathPlanner :=
  { p with weather_conditions := p.weather_conditions ++ [w] }

/-- Method add_traffic_zone of FlightPathPlanner. -/
def add_traffic_zone (p : FlightPathPlanner) (z : AirTrafficZone) :
    FlightPathPlanner :=
  { p with traffic_zones := p.traffic_zones ++ [z] }

/-- Python expression self.airports.values() (dict insertion order). -/
def airportsValues (p : FlightPathPlanner) : List Airport :=
  p.airports.map (fun q => q.2)

/-- Method get_nearby_airports: all airports within max_distance of the
    location, as (airport, distance) pairs sorted by distance (stable
    Python sorted, modelled by insertion sort).  The transcendental
    great-circle distance calculate_distance is modelled by the abstract
    parameter cdist on (lat1, lon1, lat2, lon2). -/
def get_nearby_airports (cdist : ℚ → ℚ → ℚ → ℚ → ℚ)
    (p : FlightPathPlanner) (lat lon max_distance : ℚ) :
    List (Airport × ℚ) :=
  let nearby := ((airportsValues p).map
      (fun a => (a, cdist lat lon a.lat a.lon))).filter
    (fun x => decide (x.2 ≤ max_distance))
  List.insertionSort (fun x y => x.2 ≤ y.2) nearby

/-- Method check_path_feasibility, reduced to its Boolean verdict (the
    human-readable reason string of the source is display-only): a path is
    infeasible when some registered weather condition affects it with
    severity above 7. -/
def check_path_feasibility (p : FlightPathPlanner)
    (start_lat start_lon end_lat end_lon altitude : ℚ) : Bool :=
  p.weather_conditions.all (fun w =>
    !(affects_path w (start_lat, start_lon) (end_lat, end_lon) altitude
      && decide (w.severity > 7)))

/-- Method estimate_travel_time: base time distance / speed, times the
    running maximum (starting from 1.0) of all traffic-zone delay
    factors. -/
def estimate_travel_time (p : FlightPathPlanner)
    (distance aircraft_speed altitude : ℚ) : ℚ :=
  let base_time := distance / aircraft_speed
  let total_delay_factor :=
    p.traffic_zones.foldl (fun acc z => max acc (get_delay_factor z altitude)) 1
  base_time * total_delay_factor

/-- Runway requirement table at the top of depth_limited_search
    (small 3000, medium 5000, anything else 8000). -/
def minRunwayFor (aircraft_type : String) : ℚ :=
  if aircraft_type = "small" then 3000
  else if aircraft_type = "medium" then 5000
  else 8000

/-- Entry of an accumulated path: (label, latitude, longitude, segment
    distance, segment time), the label being an airport code or "WP". -/
abbrev PathPoint := String × ℚ × ℚ × ℚ × ℚ

/-- One record of viable_paths inside depth_limited_search. -/
structure PathData where
  path : List PathPoint
  total_distance : ℚ
  total_time : ℚ
  airport : Airport
deriving DecidableEq

/-- Waypoint sampling of one recursion level of dls_recursive: five
    candidates, each consuming two draws of the random stream rng (the
    two random.random() calls for the latitude and longitude offsets),
    kept when feasible and closer than 100; returns the kept waypoints
    (lat, lon, distance, time) and the next stream position. -/
def sampleWaypoints (cdist : ℚ → ℚ → ℚ → ℚ → ℚ) (p : FlightPathPlanner)
    (rng : ℕ → ℚ) (curr_lat curr_lon aircraft_speed altitude_constraint : ℚ) :
    ℕ → ℕ → List (ℚ × ℚ × ℚ × ℚ) × ℕ
  | 0, i => ([], i)
  | Nat.succ k, i =>
    let lat_offset := (rng i * 2 - 1) * (1/2)
    let lon_offset := (rng (i + 1) * 2 - 1) * (1/2)
    let new_lat := curr_lat + lat_offset
    let new_lon := curr_lon + lon_offset
    let waypoint_distance := cdist curr_lat curr_lon new_lat new_lon
    let feasible := check_path_feasibility p curr_lat curr_lon new_lat
      new_lon altitude_constraint
    let rec_result := sampleWaypoints cdist p rng curr_lat curr_lon
      aircraft_speed altitude_constraint k (i + 2)
    (if feasible && decide (waypoint_distance < 100) then
      (new_lat, new_lon, waypoint_distance,
        estimate_travel_time p waypoint_distance aircraft_speed
          altitude_constraint) :: rec_result.1
     else rec_result.1, rec_result.2)

/-- Loop of dls_recursive over the kept waypoints: recurse from each
    waypoint, extending the accumulated path and totals, collecting every
    viable path in discovery order (the source appends to one shared
    viable_paths list). -/
def dlsWaypointLoop
    (recurse : ℚ → ℚ → List PathPoint → ℚ → ℚ → ℕ → List PathData × ℕ)
    (path : List PathPoint) (total_distance total_time : ℚ) :
    List (ℚ × ℚ × ℚ × ℚ) → List PathData → ℕ → List PathData × ℕ
  | [], acc, i => (acc, i)
  | wp :: rest, acc, i =>
    let r := recurse wp.1 wp.2.1
      (path ++ [("WP", wp.1, wp.2.1, wp.2.2.1, wp.2.2.2)])
      (total_distance + wp.2.2.1) (total_time + wp.2.2.2) i
    dlsWaypointLoop recurse path total_distance total_time rest
      (acc ++ r.1) r.2

/-- Recursive core dls_recursive of depth_limited_search, with
    fuel = max_depth + 1 - depth, so fuel = 0 is exactly the entry guard
    depth > max_depth and fuel = 1 is the deepest level (which records
    direct arrivals but samples no waypoints, the source guard
    depth < max_depth).  The dead curr_alt parameter of the source (passed
    down but never read) is omitted.  Returns the viable paths recorded by
    this subtree in discovery order and the next random-stream
    position. -/
def dlsRec (cdist : ℚ → ℚ → ℚ → ℚ → ℚ) (p : FlightPathPlanner)
    (rng : ℕ → ℚ) (suitable_airports : List (Airport × ℚ))
    (aircraft_speed altitude_constraint : ℚ) :
    ℕ → ℚ → ℚ → List PathPoint → ℚ → ℚ → ℕ → List PathData × ℕ
  | 0, _, _, _, _, _, i => ([], i)
  | Nat.succ fuel, curr_lat, curr_lon, path, total_distance, total_time, i =>
    let arrivals := suitable_airports.filterMap (fun x =>
      let airport := x.1
      let direct_distance := cdist curr_lat curr_lon airport.lat airport.lon
      if check_path_feasibility p curr_lat curr_lon airport.lat airport.lon
          altitude_constraint then
        let segment_time := estimate_travel_time p direct_distance
          aircraft_speed altitude_constraint
        some { path := path ++
                [(airport.code, airport.lat, airport.lon, direct_distance,
                  segment_time)],
               total_distance := total_distance + direct_distance,
               total_time := total_time + segment_time,
               airport := airport }
      else none)
    if fuel = 0 then (arrivals, i)
    else
      let s := sampleWaypoints cdist p rng curr_lat curr_lon aircraft_speed
        altitude_constraint 5 i
      dlsWaypointLoop
        (dlsRec cdist p rng suitable_airports aircraft_speed
          altitude_constraint fuel)
        path total_distance total_time s.1 arrivals s.2

/-- Method depth_limited_search of FlightPathPlanner: filter airports to
    those within three cruising hours and with enough runway for the
    aircraft class; empty result when none qualifies, otherwise the
    recursive search, sorted ascending by total time (stable sort).  The
    unused start_alt parameter of the source is kept for signature
    fidelity. -/
def depth_limited_search (cdist : ℚ → ℚ → ℚ → ℚ → ℚ) (rng : ℕ → ℚ)
    (p : FlightPathPlanner) (start_lat start_lon start_alt : ℚ)
    (aircraft_type : String) (aircraft_speed : ℚ) (max_depth : ℕ)
    (altitude_constraint : ℚ) : List PathData :=
  let min_runway_length := minRunwayFor aircraft_type
  let max_range := aircraft_speed * 3
  let nearby_airports := get_nearby_airports cdist p start_lat start_lon
    max_range
  let suitable_airports := nearby_airports.filter
    (fun x => decide (min_runway_length ≤ x.1.runway_length))
  if suitable_airports.isEmpty then []
  else
    let r := dlsRec cdist p rng suitable_airports aircraft_speed
      altitude_constraint (max_depth + 1) start_lat start_lon [] 0 0 0
    List.insertionSort (fun x y => x.total_time ≤ y.total_time) r.1

/-- Concrete planner for concrete checks: a single airport whose runway
    is too short for a large aircraft. -/
def examplePlanner : FlightPathPlanner :=
  { airports := [("IDR",
      { code := "IDR", name := "Devi Ahilyabai Holkar Airport",
        city := "Indore", lat := 22, lon := 75, elevation := 1850,
        runway_length := 7000, emergency_capabilities := false })],
    weather_conditions := [], traffic_zones := [] }

end Dls

theorem alookup_append {α : Type} (l1 l2 : List (String × α)) (x : String) :
    alookup (l1 ++ l2) x = (alookup l1 x).or (alookup l2 x) := by
  induction l1 with
  | nil => simp [alookup]
  | cons p rest ih =>
    obtain ⟨k, v⟩ := p
    by_cases h : x = k <;> simp [alookup, h, ih]

theorem alookup_dictModify {α : Type} (l : List (String × α)) (k : String)
    (f : α → α) (x : String) :
    alookup (dictModify l k f) x =
      if x = k then (alookup l k).map f else alookup l x := by
  induction l with
  | nil => simp [alookup, dictModify]
  | cons p rest ih =>
    obtain ⟨k1, v⟩ := p
    unfold dictModify at ih ⊢
    simp only [List.map_cons]
    by_cases hk1 : k1 = k
    · subst hk1
      simp only [if_pos rfl]
      by_cases hx : x = k1
      · subst hx; simp [alookup]
      · simp [alookup, hx, ih]
    · simp only [if_neg hk1]
      by_cases hx : x = k1
      · subst hx; simp [alookup, hk1]
      · simp [alookup, hx, ih, Ne.symm hk1]

theorem alookup_singleton {α : Type} (k x : String) (v : α) :
    alookup [(k, v)] x = if x = k then some v else none := by
  simp [alookup]

namespace Bfs

theorem routesOf_ensureKey (l : List (String × List Route))
    (k x : String) :
    (alookup (ensureKey l k) x).getD [] = (alookup l x).getD [] := by
  unfold ensureKey
  by_cases h : hasKey l k = true
  · rw [if_pos h]
  · rw [if_neg h, alookup_append, alookup_singleton]
    cases hl : alookup l x with
    | some v => simp
    | none => by_cases hx : x = k <;> simp [hx]

theorem hasKey_ensureKey (l : List (String × List Route)) (k : String) :
    hasKey (ensureKey l k) k = true := by
  unfold ensureKey
  by_cases h : hasKey l k = true
  · rw [if_pos h]; exact h
  · rw [if_neg h]
    unfold hasKey
    rw [alookup_append, alookup_singleton, if_pos rfl]
    cases hl : alookup l k <;> simp

theorem hasKey_ensureKey_mono (l : List (String × List Route)) (k k' : String)
    (h : hasKey l k = true) : hasKey (ensureKey l k') k = true := by
  unfold ensureKey
  by_cases h' : hasKey l k' = true
  · rw [if_pos h']; exact h
  · rw [if_neg h']
    unfold hasKey at h ⊢
    rw [alookup_append]
    cases hl : alookup l k with
    | some v => simp
    | none => rw [hl] at h; simp at h

theorem hasKey_dictModify (l : List (String × List Route)) (k k' : String)
    (f : List Route → List Route) (h : hasKey l k = true) :
    hasKey (dictModify l k' f) k = true := by
  unfold hasKey at h ⊢
  rw [alookup_dictModify]
  by_cases hx : k = k'
  · rw [if_pos hx]
    subst hx
    cases hl : alookup l k with
    | some v => simp
    | none => rw [hl] at h; simp at h
  · rw [if_neg hx]; exact h

/-- Effect of add_route on every adjacency list: the two new records are
    appended at the corresponding keys and nothing else changes (this also
    covers the self-loop case origin = destination, where both records end
    up on the same list in order). -/
theorem routesOf_add_route (net : AirportNetwork) (o d : String)
    (dist eff cong : ℚ) (x : String) :
    routesOf (add_route net o d dist eff cong) x =
      routesOf net x
        ++ (if x = o then [(d, dist, eff, cong)] else [])
        ++ (if x = d then [(o, dist, eff, cong)] else []) := by
  have hko : hasKey (ensureKey (ensureKey net.routes o) d) o = true :=
    hasKey_ensureKey_mono _ _ _ (hasKey_ensureKey net.routes o)
  have hkd : hasKey (ensureKey (ensureKey net.routes o) d) d = true :=
    hasKey_ensureKey (ensureKey net.routes o) d
  have hval : ∀ y, (alookup (ensureKey (ensureKey net.routes o) d) y).getD []
      = routesOf net y := by
    intro y
    rw [routesOf_ensureKey, routesOf_ensureKey]
    rfl
  obtain ⟨vo, hvo⟩ : ∃ v, alookup (ensureKey (ensureKey net.routes o) d) o
      = some v := Option.isSome_iff_exists.mp hko
  obtain ⟨vd, hvd⟩ : ∃ v, alookup (ensureKey (ensureKey net.routes o) d) d
      = some v := Option.isSome_iff_exists.mp hkd
  have hvo2 : vo = routesOf net o := by
    have := hval o; rw [hvo] at this; simpa using this
  have hvd2 : vd = routesOf net d := by
    have := hval d; rw [hvd] at this; simpa using this
  unfold add_route routesOf
  simp only [alookup_dictModify]
  by_cases hxd : x = d
  · subst hxd
    by_cases hxo : x = o
    · subst hxo
      simp [hvo, hvo2, routesOf]
    · rw [if_pos rfl, if_neg hxo, hvd]
      simp [hvd2, hxo, routesOf]
  · rw [if_neg hxd]
    by_cases hxo : x = o
    · subst hxo
      rw [if_pos rfl, hvo]
      simp [hvo2, hxd, routesOf]
    · rw [if_neg hxo]
      simp only [hxo, hxd, if_false, List.append_nil]
      exact hval x

theorem routesOf_add_airport (net : AirportNetwork) (a : Airport)
    (x : String) :
    routesOf (add_airport net a) x = routesOf net x := by
  unfold add_airport routesOf
  by_cases h : hasKey net.routes a.code = true
  · rw [if_pos h]
  · rw [if_neg h, alookup_append, alookup_singleton]
    cases hl : alookup net.routes x with
    | some v => simp
    | none => by_cases hx : x = a.code <;> simp [hx]

theorem routesSymmetric_applyOp (net : AirportNetwork) (op : NetOp)
    (h : RoutesSymmetric net) : RoutesSymmetric (applyOp net op) := by
  cases op with
  | addAirport a =>
    intro x y d f c hm
    simp only [applyOp] at hm ⊢
    rw [routesOf_add_airport] at hm ⊢
    exact h x y d f c hm
  | addRoute o dst dist eff cong =>
    intro x y d f c hm
    simp only [applyOp] at hm ⊢
    rw [routesOf_add_route] at hm ⊢
    simp only [List.mem_append, List.mem_ite_nil_right, List.mem_singleton] at hm ⊢
    rcases hm with (hm | hm) | hm
    · exact Or.inl (Or.inl (h x y d f c hm))
    · obtain ⟨hx, hy⟩ := hm
      injection hy with hy1 hy2
      exact Or.inr ⟨hy1, by rw [hx]; simp [hy2]⟩
    · obtain ⟨hx, hy⟩ := hm
      injection hy with hy1 hy2
      exact Or.inl (Or.inr ⟨hy1, by rw [hx]; simp [hy2]⟩)

theorem routesSymmetric_empty : RoutesSymmetric emptyNetwork := by
  intro a b d f c hm
  simp [routesOf, emptyNetwork, alookup] at hm

theorem routesSymmetric_buildNetwork (ops : List NetOp) :
    RoutesSymmetric (buildNetwork ops) := by
  unfold buildNetwork
  induction ops using List.reverseRecOn with
  | nil => exact routesSymmetric_empty
  | append_singleton l op ih =>
    rw [List.foldl_append]
    exact routesSymmetric_applyOp _ op ih

theorem mem_get_neighbors_iff (net : AirportNetwork) (code : String)
    (avoid prio : Bool) (r : Route) :
    r ∈ get_neighbors net code avoid prio ↔
      r ∈ routesOf net code ∧ (avoid = true → ¬hazardous net code r.1) := by
  unfold get_neighbors
  have hperm : ∀ l : List Route,
      (r ∈ if prio = true then List.insertionSort fuelSortLE l else l) ↔
        r ∈ l := by
    intro l
    by_cases hp : prio = true
    · rw [if_pos hp]
      exact (List.perm_insertionSort fuelSortLE l).mem_iff
    · rw [if_neg hp]
  rw [hperm, List.mem_filter]
  simp only [Bool.not_eq_eq_eq_not, Bool.not_true, Bool.and_eq_false_imp,
    decide_eq_false_iff_not]

theorem erase_insert_pairs (s : Finset (String × String)) (a b : String)
    (h1 : (a, b) ∉ s) (h2 : (b, a) ∉ s) :
    Finset.erase (Finset.erase (insert (b, a) (insert (a, b) s)) (a, b))
      (b, a) = s := by
  ext x
  simp only [Finset.mem_erase, Finset.mem_insert]
  constructor
  · rintro ⟨hxba, hxab, h | h | h⟩
    · exact absurd h hxba
    · exact absurd h hxab
    · exact h
  · intro hx
    refine ⟨?_, ?_, Or.inr (Or.inr hx)⟩
    · rintro rfl; exact h2 hx
    · rintro rfl; exact h1 hx

theorem update_congestion_roundtrip (net : AirportNetwork) (a b : String)
    (h1 : (a, b) ∉ net.congested_routes)
    (h2 : (b, a) ∉ net.congested_routes) :
    update_congestion (update_congestion net a b true) a b false = net := by
  obtain ⟨ap, rt, cg, wt⟩ := net
  show AirportNetwork.mk ap rt
      (Finset.erase (Finset.erase (insert (b, a) (insert (a, b) cg)) (a, b))
        (b, a)) wt = AirportNetwork.mk ap rt cg wt
  rw [erase_insert_pairs cg a b h1 h2]

theorem update_weather_roundtrip (net : AirportNetwork) (a b : String)
    (h1 : (a, b) ∉ net.weather_affected_routes)
    (h2 : (b, a) ∉ net.weather_affected_routes) :
    update_weather (update_weather net a b true) a b false = net := by
  obtain ⟨ap, rt, cg, wt⟩ := net
  show AirportNetwork.mk ap rt cg
      (Finset.erase (Finset.erase (insert (b, a) (insert (a, b) wt)) (a, b))
        (b, a)) = AirportNetwork.mk ap rt cg wt
  rw [erase_insert_pairs wt a b h1 h2]

theorem congestion_excludes (net : AirportNetwork) (a b x : String)
    (prio : Bool) (r : Route)
    (hr : r ∈ get_neighbors (update_congestion net a b true) x true prio)
    (hx : (x, r.1) = (a, b) ∨ (x, r.1) = (b, a)) : False := by
  rw [mem_get_neighbors_iff] at hr
  refine hr.2 rfl (Or.inl ?_)
  have : (update_congestion net a b true).congested_routes =
      insert (b, a) (insert (a, b) net.congested_routes) := by
    simp [update_congestion]
  rw [this]
  rcases hx with h | h <;> rw [h] <;> simp

theorem weather_excludes (net : AirportNetwork) (a b x : String)
    (prio : Bool) (r : Route)
    (hr : r ∈ get_neighbors (update_weather net a b true) x true prio)
    (hx : (x, r.1) = (a, b) ∨ (x, r.1) = (b, a)) : False := by
  rw [mem_get_neighbors_iff] at hr
  refine hr.2 rfl (Or.inr ?_)
  have : (update_weather net a b true).weather_affected_routes =
      insert (b, a) (insert (a, b) net.weather_affected_routes) := by
    simp [update_weather]
  rw [this]
  rcases hx with h | h <;> rw [h] <;> simp

theorem alookup_mem {α : Type} (l : List (String × α)) (x : String) (w : α)
    (h : alookup l x = some w) : (x, w) ∈ l := by
  induction l with
  | nil => simp [alookup] at h
  | cons p rest ih =>
    obtain ⟨k, u⟩ := p
    by_cases hx : x = k
    · subst hx
      rw [alookup, if_pos rfl] at h
      injection h with h
      subst h
      exact List.mem_cons_self _ _
    · rw [alookup, if_neg hx] at h
      exact List.mem_cons_of_mem _ (ih h)

theorem pn_sub (e : Entry) :
    ∀ (ns : List Route) (v : Finset String),
      v ⊆ (processNeighbors e ns v).2 := by
  intro ns
  induction ns with
  | nil => intro v; exact Finset.Subset.refl v
  | cons r rs ih =>
    intro v
    by_cases h : r.1 ∈ v
    · simpa [processNeighbors, h] using ih v
    · have h2 := (Finset.subset_insert r.1 v).trans (ih (insert r.1 v))
      simpa [processNeighbors, h] using h2

theorem pn_mem_dest (e : Entry) :
    ∀ (ns : List Route) (v : Finset String) (r : Route), r ∈ ns →
      r.1 ∈ (processNeighbors e ns v).2 := by
  intro ns
  induction ns with
  | nil => intro v r hr; simp at hr
  | cons r0 rs ih =>
    intro v r hr
    by_cases h : r0.1 ∈ v
    · rcases List.mem_cons.mp hr with rfl | hr2
      · simpa [processNeighbors, h] using pn_sub e rs v h
      · simpa [processNeighbors, h] using ih v r hr2
    · rcases List.mem_cons.mp hr with rfl | hr2
      · have hm : r.1 ∈ insert r.1 v := Finset.mem_insert_self r.1 v
        simpa [processNeighbors, h] using pn_sub e rs (insert r.1 v) hm
      · simpa [processNeighbors, h] using ih (insert r0.1 v) r hr2

theorem pn_new_mem (e : Entry) :
    ∀ (ns : List Route) (v : Finset String) (e2 : Entry),
      e2 ∈ (processNeighbors e ns v).1 →
      ∃ r ∈ ns, r.1 ∉ v ∧
        e2 = ⟨r.1, e.path ++ [r.1], e.dist + r.2.1,
          e.fuel + fuelUsed r.2.1 r.2.2.1⟩ := by
  intro ns
  induction ns with
  | nil => intro v e2 h; simp [processNeighbors] at h
  | cons r0 rs ih =>
    intro v e2 h
    by_cases hm : r0.1 ∈ v
    · rw [show (processNeighbors e (r0 :: rs) v).1
          = (processNeighbors e rs v).1 from by
        simp [processNeighbors, hm]] at h
      obtain ⟨r, hr, hrv, he2⟩ := ih v e2 h
      exact ⟨r, List.mem_cons_of_mem r0 hr, hrv, he2⟩
    · rw [show (processNeighbors e (r0 :: rs) v).1
          = ⟨r0.1, e.path ++ [r0.1], e.dist + r0.2.1,
              e.fuel + fuelUsed r0.2.1 r0.2.2.1⟩
            :: (processNeighbors e rs (insert r0.1 v)).1 from by
        simp [processNeighbors, hm]] at h
      rcases List.mem_cons.mp h with rfl | h2
      · exact ⟨r0, List.mem_cons_self _ _, hm, rfl⟩
      · obtain ⟨r, hr, hrv, he2⟩ := ih (insert r0.1 v) e2 h2
        exact ⟨r, List.mem_cons_of_mem r0 hr,
          fun hv => hrv (Finset.mem_insert_of_mem hv), he2⟩

theorem pn_v_mem (e : Entry) :
    ∀ (ns : List Route) (v : Finset String) (x : String),
      x ∈ (processNeighbors e ns v).2 ↔
        x ∈ v ∨ ∃ e2 ∈ (processNeighbors e ns v).1, e2.current = x := by
  intro ns
  induction ns with
  | nil => intro v x; simp [processNeighbors]
  | cons r0 rs ih =>
    intro v x
    by_cases hm : r0.1 ∈ v
    · simp only [processNeighbors, if_pos hm]
      exact ih v x
    · simp only [processNeighbors, if_neg hm]
      rw [ih (insert r0.1 v) x]
      constructor
      · rintro (hx | ⟨e2, he2, hc⟩)
        · rcases Finset.mem_insert.mp hx with rfl | hx2
          · exact Or.inr ⟨_, List.mem_cons_self _ _, rfl⟩
          · exact Or.inl hx2
        · exact Or.inr ⟨e2, List.mem_cons_of_mem _ he2, hc⟩
      · rintro (hx | ⟨e2, he2, hc⟩)
        · exact Or.inl (Finset.mem_insert_of_mem hx)
        · rcases List.mem_cons.mp he2 with rfl | h2
          · exact Or.inl (by rw [← hc]; exact Finset.mem_insert_self _ _)
          · exact Or.inr ⟨e2, h2, hc⟩

theorem pn_sdiff_card (e : Entry) (U : Finset String) :
    ∀ (ns : List Route) (v : Finset String), (∀ r ∈ ns, r.1 ∈ U) →
      (U \ (processNeighbors e ns v).2).card
          + (processNeighbors e ns v).1.length
        ≤ (U \ v).card := by
  intro ns
  induction ns with
  | nil => intro v _; simp [processNeighbors]
  | cons r0 rs ih =>
    intro v hU
    have hU2 : ∀ r ∈ rs, r.1 ∈ U :=
      fun r hr => hU r (List.mem_cons_of_mem _ hr)
    by_cases hm : r0.1 ∈ v
    · simp only [processNeighbors, if_pos hm]
      exact ih v hU2
    · simp only [processNeighbors, if_neg hm, List.length_cons]
      have h1 := ih (insert r0.1 v) hU2
      have hmem : r0.1 ∈ U \ v :=
        Finset.mem_sdiff.mpr ⟨hU r0 (List.mem_cons_self _ _), hm⟩
      have h2 : (U \ insert r0.1 v).card = (U \ v).card - 1 := by
        rw [Finset.sdiff_insert, Finset.card_erase_of_mem hmem]
      have h3 : 1 ≤ (U \ v).card :=
        Finset.card_pos.mpr ⟨r0.1, hmem⟩
      omega

theorem get_neighbors_sub_routesOf (net : AirportNetwork) (a : String)
    (avoid prio : Bool) (r : Route)
    (h : r ∈ get_neighbors net a avoid prio) : r ∈ routesOf net a := by
  rw [mem_get_neighbors_iff] at h
  exact h.1

theorem mem_neighborCodes_iff (net : AirportNetwork) (a : String)
    (avoid prio : Bool) (z : String) :
    z ∈ (get_neighbors net a avoid prio).map (fun r => r.1) ↔
      z ∈ neighborCodes net avoid a := by
  unfold neighborCodes
  constructor <;> intro h <;> rw [List.mem_map] at h ⊢ <;>
    obtain ⟨r, hr, rfl⟩ := h <;> refine ⟨r, ?_, rfl⟩ <;>
    rw [mem_get_neighbors_iff] at hr ⊢ <;> exact hr

theorem neighborCodes_sub_allDests (net : AirportNetwork) (avoid : Bool)
    (a z : String) (h : z ∈ neighborCodes net avoid a) :
    z ∈ allDests net := by
  unfold neighborCodes at h
  rw [List.mem_map] at h
  obtain ⟨r, hr, rfl⟩ := h
  have hro : r ∈ routesOf net a :=
    get_neighbors_sub_routesOf net a avoid false r hr
  unfold routesOf at hro
  cases hl : alookup net.routes a with
  | none => rw [hl] at hro; simp at hro
  | some lst =>
    rw [hl] at hro
    simp only [Option.getD_some] at hro
    have hmem := alookup_mem net.routes a lst hl
    unfold allDests
    rw [List.mem_toFinset, List.mem_join]
    refine ⟨lst.map (fun r => r.1), ?_, List.mem_map_of_mem _ hro⟩
    exact List.mem_map_of_mem (fun q => q.2.map (fun r => r.1)) hmem

theorem walk_zero (net : AirportNetwork) (avoid : Bool) (a b : String)
    (h : Walk net avoid a b 0) : a = b := by
  cases h; rfl

theorem walk_snoc (net : AirportNetwork) (avoid : Bool) :
    ∀ (a b z : String) (n : ℕ), Walk net avoid a b n →
      z ∈ neighborCodes net avoid b → Walk net avoid a z (n + 1) := by
  intro a b z n h
  induction h with
  | refl c => intro hz; exact Walk.step hz (Walk.refl z)
  | step hnb hw ih => intro hz; exact Walk.step hnb (ih hz)

theorem walk_snoc_inv (net : AirportNetwork) (avoid : Bool) :
    ∀ (n : ℕ) (a y : String), Walk net avoid a y (n + 1) →
      ∃ x, Walk net avoid a x n ∧ y ∈ neighborCodes net avoid x := by
  intro n
  induction n with
  | zero =>
    intro a y h
    cases h with
    | step hnb hw =>
      obtain rfl := walk_zero net avoid _ _ hw
      exact ⟨a, Walk.refl a, hnb⟩
  | succ n ih =>
    intro a y h
    cases h with
    | step hnb hw =>
      obtain ⟨x, hwx, hy⟩ := ih _ y hw
      exact ⟨x, Walk.step hnb hwx, hy⟩

theorem walk_closure (net : AirportNetwork) (avoid : Bool)
    (v : Finset String)
    (hcl : ∀ x ∈ v, ∀ z ∈ neighborCodes net avoid x, z ∈ v) :
    ∀ (a b : String) (n : ℕ), Walk net avoid a b n → a ∈ v → b ∈ v := by
  intro a b n hw
  induction hw with
  | refl c => exact id
  | step hnb hw2 ih => intro ha; exact ih (hcl _ ha _ hnb)

theorem routeChain_snoc (net : AirportNetwork) :
    ∀ (p : List String) (D F : ℚ), RouteChain net p D F →
      ∀ (a z : String) (d f c : ℚ), p.getLast? = some a →
        (z, d, f, c) ∈ routesOf net a →
        RouteChain net (p ++ [z]) (D + d) (F + fuelUsed d f) := by
  intro p D F h
  induction h with
  | single a0 =>
    intro a z d f c hlast hmem
    simp only [List.getLast?_singleton, Option.some.injEq] at hlast
    subst hlast
    have h2 := RouteChain.cons hmem (RouteChain.single z)
    simpa using h2
  | cons hmem0 hchain ih =>
    intro a z d f c hlast hmem
    rw [List.getLast?_cons_cons] at hlast
    have h2 := RouteChain.cons hmem0 (ih a z d f c hlast hmem)
    simpa [add_assoc] using h2

theorem bfsAux_total (net : AirportNetwork) (goal : String)
    (avoid prio : Bool) :
    ∀ (gas : ℕ) (q : List Entry) (v : Finset String),
      q.length + (allDests net \ v).card < gas →
      ∃ r, bfsAux net goal avoid prio gas q v = some r := by
  intro gas
  induction gas with
  | zero => intro q v h; omega
  | succ gas ih =>
    intro q v h
    cases q with
    | nil => exact ⟨none, rfl⟩
    | cons e rest =>
      by_cases hg : e.current = goal
      · exact ⟨some (e.path, e.dist, e.fuel), by simp [bfsAux, hg]⟩
      · have hU : ∀ r ∈ get_neighbors net e.current avoid prio,
            r.1 ∈ allDests net := by
          intro r hr
          apply neighborCodes_sub_allDests net avoid e.current
          rw [← mem_neighborCodes_iff net e.current avoid prio]
          exact List.mem_map_of_mem _ hr
        have hmeas := pn_sdiff_card e (allDests net)
          (get_neighbors net e.current avoid prio) v hU
        have hlen : (rest
              ++ (processNeighbors e (get_neighbors net e.current avoid prio)
                v).1).length
            + (allDests net
                \ (processNeighbors e
                    (get_neighbors net e.current avoid prio) v).2).card
            < gas := by
          rw [List.length_append]
          simp only [List.length_cons] at h
          omega
        obtain ⟨r, hr⟩ := ih _ _ hlen
        exact ⟨r, by simp only [bfsAux, if_neg hg]; exact hr⟩

theorem entryWF_len_pos (net : AirportNetwork) (avoid : Bool)
    (start : String) (e : Entry) (h : EntryWF net avoid start e) :
    1 ≤ e.path.length := by
  obtain ⟨h1, _⟩ := h
  cases hp : e.path with
  | nil => rw [hp] at h1; simp at h1
  | cons a l => simp [hp]

theorem levels_step (e0 : Entry) (rest new : List Entry)
    (q1 q2 : List Entry) (L : ℕ)
    (hq : e0 :: rest = q1 ++ q2)
    (h1 : ∀ e ∈ q1, e.path.length = L)
    (h2 : ∀ e ∈ q2, e.path.length = L + 1)
    (hnew : ∀ e ∈ new, e.path.length = e0.path.length + 1) :
    (∃ L' q1' q2', rest ++ new = q1' ++ q2'
        ∧ (∀ e ∈ q1', e.path.length = L')
        ∧ (∀ e ∈ q2', e.path.length = L' + 1))
    ∧ (∀ e ∈ rest, e.path.length = e0.path.length
        ∨ e.path.length = e0.path.length + 1)
    ∧ (∀ h' rest', rest ++ new = h' :: rest' →
        e0.path.length + 1 ≤ h'.path.length →
        ∀ e ∈ rest, e.path.length = e0.path.length + 1) := by
  cases q1 with
  | nil =>
    have hq2 : q2 = e0 :: rest := by simpa using hq.symm
    have he0 : e0.path.length = L + 1 :=
      h2 e0 (hq2 ▸ List.mem_cons_self _ _)
    have hrest : ∀ e ∈ rest, e.path.length = L + 1 := by
      intro e he
      exact h2 e (hq2 ▸ List.mem_cons_of_mem _ he)
    refine ⟨⟨L + 1, rest, new, rfl, hrest, ?_⟩, ?_, ?_⟩
    · intro e he
      rw [hnew e he, he0]
    · intro e he
      rw [hrest e he, he0]
      exact Or.inl rfl
    · intro h' rest' happ hlen e he
      cases rest with
      | nil => simp at he
      | cons r rs =>
        have hh' : h' = r := by
          rw [List.cons_append] at happ
          exact (List.cons.injEq _ _ _ _ ▸ happ.symm).1
        have := hrest r (List.mem_cons_self _ _)
        rw [hh', this] at hlen
        omega
  | cons f q1' =>
    rw [List.cons_append] at hq
    injection hq with hf hrest2
    subst hf
    have he0 : e0.path.length = L := h1 e0 (List.mem_cons_self _ _)
    have hq1' : ∀ e ∈ q1', e.path.length = L :=
      fun e he => h1 e (List.mem_cons_of_mem _ he)
    refine ⟨⟨L, q1', q2 ++ new, ?_, hq1', ?_⟩, ?_, ?_⟩
    · rw [hrest2, List.append_assoc]
    · intro e he
      rcases List.mem_append.mp he with h | h
      · exact h2 e h
      · rw [hnew e h, he0]
    · intro e he
      rw [hrest2] at he
      rcases List.mem_append.mp he with h | h
      · rw [hq1' e h, he0]; exact Or.inl rfl
      · rw [h2 e h, he0]; exact Or.inr rfl
    · intro h' rest' happ hlen e he
      cases hcq : q1' with
      | nil =>
        rw [hcq] at hrest2
        simp only [List.nil_append] at hrest2
        rw [hrest2] at he
        rw [h2 e he, he0]
      | cons g q1'' =>
        have hg : h' = g := by
          rw [hrest2, hcq] at happ
          rw [List.cons_append, List.cons_append] at happ
          exact (List.cons.injEq _ _ _ _ ▸ happ.symm).1
        have := hq1' g (hcq ▸ List.mem_cons_self _ _)
        rw [hg, this, he0] at hlen
        omega

theorem pn_new_wf (net : AirportNetwork) (avoid prio : Bool)
    (start : String) (e0 : Entry) (v : Finset String)
    (hwf : EntryWF net avoid start e0)
    (hfr : ∀ y n, Walk net avoid start y n →
      n + 1 ≤ e0.path.length → y ∈ v) :
    ∀ e2 ∈ (processNeighbors e0
        (get_neighbors net e0.current avoid prio) v).1,
      EntryWF net avoid start e2
        ∧ e2.path.length = e0.path.length + 1 := by
  intro e2 he2
  obtain ⟨r, hr, hrv, rfl⟩ := pn_new_mem e0 _ v e2 he2
  obtain ⟨hhead, hlast, hwalk, hmin, hchain⟩ := hwf
  have hlenpos : 1 ≤ e0.path.length :=
    entryWF_len_pos net avoid start e0 ⟨hhead, hlast, hwalk, hmin, hchain⟩
  have hnb : r.1 ∈ neighborCodes net avoid e0.current := by
    rw [← mem_neighborCodes_iff net e0.current avoid prio]
    exact List.mem_map_of_mem _ hr
  have hlen : (e0.path ++ [r.1]).length = e0.path.length + 1 := by
    simp
  have hro : r ∈ routesOf net e0.current :=
    get_neighbors_sub_routesOf net e0.current avoid prio r hr
  refine ⟨⟨?_, ?_, ?_, ?_, ?_⟩, hlen⟩
  · show (e0.path ++ [r.1]).head? = some start
    rw [List.head?_append, hhead]
    rfl
  · show (e0.path ++ [r.1]).getLast? = some r.1
    exact List.getLast?_concat e0.path
  · show Walk net avoid start r.1 ((e0.path ++ [r.1]).length - 1)
    have hw2 := walk_snoc net avoid start e0.current r.1
      (e0.path.length - 1) hwalk hnb
    have heq : (e0.path ++ [r.1]).length - 1 = e0.path.length - 1 + 1 := by
      rw [hlen]; omega
    rw [heq]
    exact hw2
  · intro n hw
    by_contra hcon
    rw [hlen] at hcon
    exact hrv (hfr r.1 n hw (by omega))
  · show RouteChain net (e0.path ++ [r.1]) (e0.dist + r.2.1)
      (e0.fuel + fuelUsed r.2.1 r.2.2.1)
    exact routeChain_snoc net e0.path e0.dist e0.fuel hchain e0.current
      r.1 r.2.1 r.2.2.1 r.2.2.2 hlast hro

theorem bfsInv_init (net : AirportNetwork) (avoid prio : Bool)
    (start goal : String) :
    BfsInv net avoid prio start goal [⟨start, [start], 0, 0⟩] {start} := by
  refine ⟨?_, ⟨1, [⟨start, [start], 0, 0⟩], [], rfl, ?_, ?_⟩, ?_, ?_, ?_, ?_,
    Finset.mem_singleton_self start⟩
  · intro e he
    rw [List.mem_singleton] at he
    subst he
    exact ⟨rfl, rfl, Walk.refl start, fun n _ => Nat.zero_le n,
      RouteChain.single start⟩
  · intro e he
    rw [List.mem_singleton] at he
    subst he
    rfl
  · intro e he
    simp at he
  · intro e0 rest hq y n hw hn
    injection hq with hh _
    rw [← hh] at hn
    simp only [List.length_singleton] at hn
    have hn0 : n = 0 := by omega
    subst hn0
    obtain rfl := walk_zero net avoid start y hw
    exact Finset.mem_singleton_self start
  · intro x hx
    rw [Finset.mem_singleton] at hx
    subst hx
    exact Or.inl ⟨_, List.mem_singleton_self _, rfl⟩
  · intro hg
    rw [Finset.mem_singleton] at hg
    exact ⟨_, List.mem_singleton_self _, hg.symm⟩
  · intro e he
    rw [List.mem_singleton] at he
    subst he
    exact Finset.mem_singleton_self start

theorem bfsInv_step (net : AirportNetwork) (avoid prio : Bool)
    (start goal : String) (e0 : Entry) (rest : List Entry)
    (v : Finset String)
    (inv : BfsInv net avoid prio start goal (e0 :: rest) v)
    (hgoal : e0.current ≠ goal) :
    BfsInv net avoid prio start goal
      (rest ++ (processNeighbors e0
        (get_neighbors net e0.current avoid prio) v).1)
      (processNeighbors e0
        (get_neighbors net e0.current avoid prio) v).2 := by
  have hwf0 := inv.wf e0 (List.mem_cons_self _ _)
  have hfr0 : ∀ y n, Walk net avoid start y n →
      n + 1 ≤ e0.path.length → y ∈ v :=
    inv.frontier e0 rest rfl
  have hnewwf := pn_new_wf net avoid prio start e0 v hwf0 hfr0
  have hsub : v ⊆ (processNeighbors e0
      (get_neighbors net e0.current avoid prio) v).2 :=
    pn_sub e0 _ v
  have hnbv2 : ∀ z ∈ neighborCodes net avoid e0.current,
      z ∈ (processNeighbors e0
        (get_neighbors net e0.current avoid prio) v).2 := by
    intro z hz
    rw [← mem_neighborCodes_iff net e0.current avoid prio] at hz
    rw [List.mem_map] at hz
    obtain ⟨r, hr, rfl⟩ := hz
    exact pn_mem_dest e0 _ v r hr
  obtain ⟨L, q1, q2, hq, h1, h2⟩ := inv.levels
  have hmain := levels_step e0 rest _ q1 q2 L hq h1 h2
    (fun e he => (hnewwf e he).2)
  refine ⟨?_, hmain.1, ?_, ?_, ?_, ?_, hsub inv.start_mem⟩
  · intro e he
    rcases List.mem_append.mp he with h | h
    · exact inv.wf e (List.mem_cons_of_mem _ h)
    · exact (hnewwf e h).1
  · intro h' rest' hq' y n hwalk hn
    by_cases hcase : n + 1 ≤ e0.path.length
    · exact hsub (hfr0 y n hwalk hcase)
    · have hh' : h'.path.length ≤ e0.path.length + 1 := by
        have hmem : h' ∈ rest ++ (processNeighbors e0
            (get_neighbors net e0.current avoid prio) v).1 := by
          rw [hq']
          exact List.mem_cons_self _ _
        rcases List.mem_append.mp hmem with h | h
        · rcases hmain.2.1 h' h with h3 | h3 <;> omega
        · rw [(hnewwf h' h).2]
      have hn2 : n = e0.path.length := by omega
      have hall : ∀ e ∈ rest, e.path.length = e0.path.length + 1 :=
        hmain.2.2 h' rest' hq' (by omega)
      have hL1 : 1 ≤ e0.path.length :=
        entryWF_len_pos net avoid start e0 hwf0
      obtain ⟨m, rfl⟩ : ∃ m, n = m + 1 := ⟨n - 1, by omega⟩
      obtain ⟨x, hwx, hyx⟩ := walk_snoc_inv net avoid m start y hwalk
      have hxv : x ∈ v := hfr0 x m hwx (by omega)
      rcases inv.expanded x hxv with ⟨e, he, hec⟩ | hclosed
      · rcases List.mem_cons.mp he with rfl | herest
        · rw [← hec] at hyx
          exact hnbv2 y hyx
        · have hel := hall e herest
          have hmin := (inv.wf e (List.mem_cons_of_mem _ herest)).2.2.2.1
          have hwx2 : Walk net avoid start e.current m := hec ▸ hwx
          have := hmin m hwx2
          omega
      · exact hsub (hclosed y hyx)
  · intro x hx
    rcases (pn_v_mem e0 _ v x).mp hx with hxv | ⟨e2, he2, hc⟩
    · rcases inv.expanded x hxv with ⟨e, he, hec⟩ | hclosed
      · rcases List.mem_cons.mp he with rfl | herest
        · right
          intro z hz
          rw [← hec] at hz
          exact hnbv2 z hz
        · exact Or.inl ⟨e, List.mem_append_left _ herest, hec⟩
      · exact Or.inr (fun z hz => hsub (hclosed z hz))
    · exact Or.inl ⟨e2, List.mem_append_right _ he2, hc⟩
  · intro hg
    rcases (pn_v_mem e0 _ v goal).mp hg with hgv | ⟨e2, he2, hc⟩
    · obtain ⟨e, he, hec⟩ := inv.goal_pending hgv
      rcases List.mem_cons.mp he with rfl | herest
      · exact absurd hec hgoal
      · exact ⟨e, List.mem_append_left _ herest, hec⟩
    · exact ⟨e2, List.mem_append_right _ he2, hc⟩
  · intro e he
    rcases List.mem_append.mp he with h | h
    · exact hsub (inv.current_mem e (List.mem_cons_of_mem _ h))
    · exact (pn_v_mem e0 _ v e.current).mpr (Or.inr ⟨e, h, rfl⟩)

theorem bfsAux_sound_found (net : AirportNetwork) (avoid prio : Bool)
    (start goal : String) :
    ∀ (gas : ℕ) (q : List Entry) (v : Finset String)
      (p : List String) (d fu : ℚ),
      bfsAux net goal avoid prio gas q v = some (some (p, d, fu)) →
      BfsInv net avoid prio start goal q v →
      p.head? = some start ∧ p.getLast? = some goal
        ∧ Walk net avoid start goal (p.length - 1)
        ∧ (∀ n, Walk net avoid start goal n → p.length - 1 ≤ n)
        ∧ RouteChain net p d fu := by
  intro gas
  induction gas with
  | zero => intro q v p d fu h _; simp [bfsAux] at h
  | succ gas ih =>
    intro q v p d fu h inv
    cases q with
    | nil => simp [bfsAux] at h
    | cons e rest =>
      by_cases hg : e.current = goal
      · rw [show bfsAux net goal avoid prio (gas + 1) (e :: rest) v
            = some (some (e.path, e.dist, e.fuel)) from by
          simp [bfsAux, hg]] at h
        simp only [Option.some.injEq, Prod.mk.injEq] at h
        obtain ⟨h1, h2, h3⟩ := h
        subst h1; subst h2; subst h3
        obtain ⟨hh, hl, hw, hm, hc⟩ := inv.wf e (List.mem_cons_self _ _)
        rw [hg] at hl hw hm
        exact ⟨hh, hl, hw, hm, hc⟩
      · rw [show bfsAux net goal avoid prio (gas + 1) (e :: rest) v
            = bfsAux net goal avoid prio gas
                (rest ++ (processNeighbors e
                  (get_neighbors net e.current avoid prio) v).1)
                (processNeighbors e
                  (get_neighbors net e.current avoid prio) v).2 from by
          simp [bfsAux, hg]] at h
        exact ih _ _ p d fu h
          (bfsInv_step net avoid prio start goal e rest v inv hg)

theorem bfsAux_sound_none (net : AirportNetwork) (avoid prio : Bool)
    (start goal : String) :
    ∀ (gas : ℕ) (q : List Entry) (v : Finset String),
      bfsAux net goal avoid prio gas q v = some none →
      BfsInv net avoid prio start goal q v →
      ∀ n, ¬ Walk net avoid start goal n := by
  intro gas
  induction gas with
  | zero => intro q v h _ n hw; simp [bfsAux] at h
  | succ gas ih =>
    intro q v h inv n hw
    cases q with
    | nil =>
      have hclosed : ∀ x ∈ v, ∀ z ∈ neighborCodes net avoid x, z ∈ v := by
        intro x hx
        rcases inv.expanded x hx with ⟨e, he, _⟩ | hcl
        · exact absurd he (List.not_mem_nil e)
        · exact hcl
      have hgv : goal ∈ v :=
        walk_closure net avoid v hclosed start goal n hw inv.start_mem
      obtain ⟨e, he, _⟩ := inv.goal_pending hgv
      exact absurd he (List.not_mem_nil e)
    | cons e rest =>
      by_cases hg : e.current = goal
      · rw [show bfsAux net goal avoid prio (gas + 1) (e :: rest) v
            = some (some (e.path, e.dist, e.fuel)) from by
          simp [bfsAux, hg]] at h
        simp at h
      · rw [show bfsAux net goal avoid prio (gas + 1) (e :: rest) v
            = bfsAux net goal avoid prio gas
                (rest ++ (processNeighbors e
                  (get_neighbors net e.current avoid prio) v).1)
                (processNeighbors e
                  (get_neighbors net e.current avoid prio) v).2 from by
          simp [bfsAux, hg]] at h
        exact ih _ _ h
          (bfsInv_step net avoid prio start goal e rest v inv hg) n hw

theorem bfsGas_sufficient (net : AirportNetwork) (start : String) :
    ([(⟨start, [start], 0, 0⟩ : Entry)]).length
        + (allDests net \ {start}).card < bfsGas net := by
  have h : (allDests net \ {start}).card ≤ (allDests net).card :=
    Finset.card_le_card (Finset.sdiff_subset)
  unfold bfsGas
  simp only [List.length_singleton]
  omega

end Bfs


namespace Dls

theorem foldl_max_init_le (l : List ℚ) (a : ℚ) : a ≤ l.foldl max a := by
  induction l generalizing a with
  | nil => exact le_refl a
  | cons x xs ih => exact le_trans (le_max_left a x) (ih (max a x))

theorem foldl_max_mem_le (l : List ℚ) (a : ℚ) :
    ∀ x ∈ l, x ≤ l.foldl max a := by
  induction l generalizing a with
  | nil => intro x hx; simp at hx
  | cons y ys ih =>
    intro x hx
    rcases List.mem_cons.mp hx with rfl | hx2
    · exact le_trans (le_max_right a x) (foldl_max_init_le ys (max a x))
    · exact ih (max a y) x hx2

theorem foldl_max_cases (l : List ℚ) (a : ℚ) :
    l.foldl max a = a ∨ l.foldl max a ∈ l := by
  induction l generalizing a with
  | nil => exact Or.inl rfl
  | cons y ys ih =>
    rw [List.foldl_cons]
    rcases ih (max a y) with h | h
    · rcases max_cases a y with ⟨h2, _⟩ | ⟨h2, _⟩
      · left; rw [h, h2]
      · right; rw [h, h2]; exact List.mem_cons_self y ys
    · right; exact List.mem_cons_of_mem y h

theorem get_delay_factor_in_band (z : AirTrafficZone) (altitude : ℚ)
    (h1 : z.min_altitude ≤ altitude) (h2 : altitude ≤ z.max_altitude) :
    get_delay_factor z altitude
      = 1 + (z.congestion_level / 10) * (3/2 - altitude / z.max_altitude) := by
  unfold get_delay_factor
  rw [if_neg]
  push_neg
  exact ⟨h1, h2⟩

theorem altitude_factor_bounds (altitude mx : ℚ) (h2 : altitude ≤ mx)
    (h3 : 0 < mx) : 1/2 ≤ 3/2 - altitude / mx := by
  have : altitude / mx ≤ 1 := by rw [div_le_one h3]; exact h2
  linarith

theorem get_delay_factor_ge_one (z : AirTrafficZone) (altitude : ℚ)
    (hc : 0 ≤ z.congestion_level) (h1 : z.min_altitude ≤ altitude)
    (h2 : altitude ≤ z.max_altitude) (h3 : 0 < z.max_altitude) :
    1 ≤ get_delay_factor z altitude := by
  rw [get_delay_factor_in_band z altitude h1 h2]
  have hA := altitude_factor_bounds altitude z.max_altitude h2 h3
  nlinarith

theorem suitable_airports_nil (cdist : ℚ → ℚ → ℚ → ℚ → ℚ)
    (p : FlightPathPlanner) (start_lat start_lon : ℚ)
    (aircraft_type : String) (aircraft_speed : ℚ)
    (h : ∀ a ∈ airportsValues p,
      cdist start_lat start_lon a.lat a.lon ≤ aircraft_speed * 3 →
      a.runway_length < minRunwayFor aircraft_type) :
    (get_nearby_airports cdist p start_lat start_lon
        (aircraft_speed * 3)).filter
      (fun x => decide (minRunwayFor aircraft_type ≤ x.1.runway_length))
      = [] := by
  rw [List.filter_eq_nil_iff]
  intro x hx
  simp only [get_nearby_airports] at hx
  have hx2 := (List.perm_insertionSort
    (fun x y : Airport × ℚ => x.2 ≤ y.2)
    (((airportsValues p).map
        (fun a => (a, cdist start_lat start_lon a.lat a.lon))).filter
      (fun x => decide (x.2 ≤ aircraft_speed * 3)))).mem_iff.mp hx
  rw [List.mem_filter] at hx2
  obtain ⟨hmap, hle⟩ := hx2
  rw [List.mem_map] at hmap
  obtain ⟨a, ha, rfl⟩ := hmap
  have hlt := h a ha (by simpa using hle)
  simp only [decide_eq_true_eq]
  exact not_le.mpr hlt

end Dls

namespace Dfs

theorem is_suitable_can_reach (dist : Position → Position → ℚ)
    (coin : Bool) (a : Airport) (ac : Aircraft)
    (h : is_suitable_for_emergency dist coin a ac = true) :
    dist ac.position a.position ≤ ac.fuel_remaining := by
  by_cases hc : can_reach_airport dist ac a = true
  · unfold can_reach_airport at hc
    exact of_decide_eq_true hc
  · exfalso
    unfold is_suitable_for_emergency at h
    simp [hc] at h

theorem is_suitable_no_emergency (dist : Position → Position → ℚ)
    (coin : Bool) (a : Airport) (ac : Aircraft)
    (h : ac.emergency_status = none) :
    is_suitable_for_emergency dist coin a ac
      = (can_reach_airport dist ac a && meets_minimum_requirements a ac) := by
  unfold is_suitable_for_emergency
  rw [h]
  cases hcr : can_reach_airport dist ac a <;>
    cases hm : meets_minimum_requirements a ac <;> simp

theorem midpointAircraft_emergency (dist : Position → Position → ℚ)
    (ac : Aircraft) (a : Airport) :
    (midpointAircraft dist ac a).emergency_status = ac.emergency_status := by
  simp [midpointAircraft]

theorem midpointAircraft_fuel (dist : Position → Position → ℚ)
    (hd : ∀ p q, 0 ≤ dist p q) (ac : Aircraft) (a : Airport) :
    (midpointAircraft dist ac a).fuel_remaining ≤ ac.fuel_remaining := by
  simp only [midpointAircraft]
  have := hd ac.position
    ⟨(ac.position.latitude + a.position.latitude) / 2,
      (ac.position.longitude + a.position.longitude) / 2⟩
  linarith

theorem emergencyDfsLoop_coins_congr (dist : Position → Position → ℚ)
    (coins1 coins2 : ℕ → Bool)
    (step1 step2 : Aircraft → Finset String → ℕ → ℕ →
      Option (Option Airport × Finset String × ℕ))
    (hstep : ∀ ac2 v2 d2 c2, ac2.emergency_status = none →
      step1 ac2 v2 d2 c2 = step2 ac2 v2 d2 c2)
    (ac : Aircraft) (hac : ac.emergency_status = none) (depth : ℕ) :
    ∀ (l : List Airport) (v : Finset String) (ctr : ℕ),
      emergencyDfsLoop dist coins1 step1 ac depth l v ctr
        = emergencyDfsLoop dist coins2 step2 ac depth l v ctr := by
  intro l
  induction l with
  | nil => intro v ctr; rfl
  | cons a rest ih =>
    intro v ctr
    have hsuit_eq : is_suitable_for_emergency dist (coins1 ctr) a ac
        = is_suitable_for_emergency dist (coins2 ctr) a ac := by
      rw [is_suitable_no_emergency dist _ a ac hac,
        is_suitable_no_emergency dist _ a ac hac]
    by_cases hmem : a.id ∈ v
    · simp only [emergencyDfsLoop, if_pos hmem]
      exact ih v ctr
    · simp only [emergencyDfsLoop, if_neg hmem]
      rw [← hsuit_eq]
      by_cases hsuit :
          is_suitable_for_emergency dist (coins1 ctr) a ac = true
      · simp [hsuit]
      · simp only [hsuit, Bool.false_eq_true, if_false]
        by_cases hfuel : (midpointAircraft dist ac a).fuel_remaining ≤ 0
        · simp only [if_pos hfuel]
          exact ih _ _
        · simp only [if_neg hfuel]
          have hmid : (midpointAircraft dist ac a).emergency_status = none := by
            rw [midpointAircraft_emergency]; exact hac
          rw [hstep _ _ _ _ hmid]
          cases h2 : step2 (midpointAircraft dist ac a) (insert a.id v)
              (depth + 1) (ctr + 1) with
          | none => rfl
          | some r =>
            obtain ⟨res1, v2, c2⟩ := r
            cases res1 with
            | some found => rfl
            | none => exact ih v2 c2

theorem emergencyDfsAux_coins_congr (dist : Position → Position → ℚ)
    (coins1 coins2 : ℕ → Bool) (airports : List Airport)
    (max_depth : Option ℕ) :
    ∀ (gas : ℕ) (ac : Aircraft) (v : Finset String) (depth ctr : ℕ),
      ac.emergency_status = none →
      emergencyDfsAux dist coins1 airports max_depth gas ac v depth ctr
        = emergencyDfsAux dist coins2 airports max_depth gas ac v depth ctr := by
  intro gas
  induction gas with
  | zero => intro ac v depth ctr _; rfl
  | succ gas ih =>
    intro ac v depth ctr hac
    have hl := emergencyDfsLoop_coins_congr dist coins1 coins2
      (emergencyDfsAux dist coins1 airports max_depth gas)
      (emergencyDfsAux dist coins2 airports max_depth gas)
      (fun ac2 v2 d2 c2 h2 => ih ac2 v2 d2 c2 h2) ac hac depth
      (sort_by_distance dist ac.position airports)
    cases max_depth with
    | none =>
      simp only [emergencyDfsAux]
      exact hl v ctr
    | some md =>
      by_cases hdp : md ≤ depth
      · simp [emergencyDfsAux, hdp]
      · simp only [emergencyDfsAux, if_neg hdp]
        exact hl v ctr

theorem emergencyDfsLoop_total (dist : Position → Position → ℚ)
    (coins : ℕ → Bool) (ids : Finset String)
    (step : Aircraft → Finset String → ℕ → ℕ →
      Option (Option Airport × Finset String × ℕ))
    (bound : ℕ)
    (hstep : ∀ ac2 v2 d2 c2, (ids \ v2).card < bound →
      ∃ r, step ac2 v2 d2 c2 = some r ∧ v2 ⊆ r.2.1)
    (ac : Aircraft) (depth : ℕ) :
    ∀ (l : List Airport), (∀ a ∈ l, a.id ∈ ids) →
      ∀ (v : Finset String) (ctr : ℕ), (ids \ v).card ≤ bound →
        ∃ r, emergencyDfsLoop dist coins step ac depth l v ctr = some r
          ∧ v ⊆ r.2.1 := by
  intro l
  induction l with
  | nil =>
    intro _ v ctr _
    exact ⟨(none, v, ctr), rfl, Finset.Subset.refl v⟩
  | cons a rest ih =>
    intro hl v ctr hcard
    have hrest : ∀ a2 ∈ rest, a2.id ∈ ids :=
      fun a2 h2 => hl a2 (List.mem_cons_of_mem a h2)
    by_cases hmem : a.id ∈ v
    · obtain ⟨r, hr, hsub⟩ := ih hrest v ctr hcard
      exact ⟨r, by rw [← hr]; simp [emergencyDfsLoop, hmem], hsub⟩
    · have hin : a.id ∈ ids := hl a (List.mem_cons_self a rest)
      have hsub1 : v ⊆ insert a.id v := Finset.subset_insert _ _
      have hcard1 : (ids \ insert a.id v).card < (ids \ v).card := by
        have hmem2 : a.id ∈ ids \ v := Finset.mem_sdiff.mpr ⟨hin, hmem⟩
        rw [Finset.sdiff_insert]
        exact Finset.card_erase_lt_of_mem hmem2
      by_cases hsuit :
          is_suitable_for_emergency dist (coins ctr) a ac = true
      · refine ⟨(some a, insert a.id v, ctr + 1), ?_, hsub1⟩
        simp [emergencyDfsLoop, hmem, hsuit]
      · by_cases hfuel : (midpointAircraft dist ac a).fuel_remaining ≤ 0
        · obtain ⟨r, hr, hsub⟩ := ih hrest (insert a.id v) (ctr + 1)
            (le_of_lt (lt_of_lt_of_le hcard1 hcard))
          refine ⟨r, ?_, hsub1.trans hsub⟩
          rw [← hr]
          simp [emergencyDfsLoop, hmem, hsuit, hfuel]
        · obtain ⟨r1, hr1, hsubr1⟩ := hstep (midpointAircraft dist ac a)
            (insert a.id v) (depth + 1) (ctr + 1)
            (lt_of_lt_of_le hcard1 hcard)
          obtain ⟨res1, v2, c2⟩ := r1
          cases res1 with
          | some found =>
            refine ⟨(some found, v2, c2), ?_, hsub1.trans hsubr1⟩
            simp [emergencyDfsLoop, hmem, hsuit, hfuel, hr1]
          | none =>
            have hc3 : (ids \ v2).card ≤ bound := by
              have hmono : ids \ v2 ⊆ ids \ insert a.id v :=
                Finset.sdiff_subset_sdiff (Finset.Subset.refl ids) hsubr1
              exact le_trans (Finset.card_le_card hmono)
                (le_of_lt (lt_of_lt_of_le hcard1 hcard))
            obtain ⟨r2, hr2, hsub2⟩ := ih hrest v2 c2 hc3
            refine ⟨r2, ?_, hsub1.trans (hsubr1.trans hsub2)⟩
            rw [← hr2]
            simp [emergencyDfsLoop, hmem, hsuit, hfuel, hr1]

theorem emergencyDfsAux_total (dist : Position → Position → ℚ)
    (coins : ℕ → Bool) (airports : List Airport) (max_depth : Option ℕ) :
    ∀ (gas : ℕ) (ac : Aircraft) (v : Finset String) (depth ctr : ℕ),
      (airportIds airports \ v).card < gas →
      ∃ r, emergencyDfsAux dist coins airports max_depth gas ac v depth ctr
        = some r ∧ v ⊆ r.2.1 := by
  intro gas
  induction gas with
  | zero => intro ac v depth ctr h; omega
  | succ gas ih =>
    intro ac v depth ctr hcard
    have hsorted : ∀ a ∈ sort_by_distance dist ac.position airports,
        a.id ∈ airportIds airports := by
      intro a ha
      have hmem : a ∈ airports := by
        unfold sort_by_distance at ha
        exact (List.perm_insertionSort _ airports).mem_iff.mp ha
      unfold airportIds
      rw [List.mem_toFinset]
      exact List.mem_map_of_mem _ hmem
    have hloop := emergencyDfsLoop_total dist coins (airportIds airports)
      (emergencyDfsAux dist coins airports max_depth gas) gas
      (fun ac2 v2 d2 c2 h2 => ih ac2 v2 d2 c2 h2) ac depth
      (sort_by_distance dist ac.position airports) hsorted v ctr
      (Nat.lt_succ_iff.mp hcard)
    cases max_depth with
    | none =>
      obtain ⟨r, hr, hsub⟩ := hloop
      exact ⟨r, by rw [← hr]; simp [emergencyDfsAux], hsub⟩
    | some md =>
      by_cases hdp : md ≤ depth
      · exact ⟨(none, v, ctr), by simp [emergencyDfsAux, hdp],
          Finset.Subset.refl v⟩
      · obtain ⟨r, hr, hsub⟩ := hloop
        exact ⟨r, by rw [← hr]; simp [emergencyDfsAux, hdp], hsub⟩

/-- Snapshot evidence behind a successful depth-first search: some
    aircraft snapshot, with no more fuel than the original aircraft,
    passed the suitability check for the returned airport at some draw of
    the random stream. -/
def FoundFrom (dist : Position → Position → ℚ) (coins : ℕ → Bool)
    (a : Airport) (ac0 : Aircraft) : Prop :=
  ∃ (ac' : Aircraft) (k : ℕ),
    is_suitable_for_emergency dist (coins k) a ac' = true ∧
    ac'.fuel_remaining ≤ ac0.fuel_remaining

theorem emergencyDfsLoop_sound (dist : Position → Position → ℚ)
    (coins : ℕ → Bool) (hd : ∀ p q, 0 ≤ dist p q)
    (step : Aircraft → Finset String → ℕ → ℕ →
      Option (Option Airport × Finset String × ℕ))
    (hstep : ∀ ac2 v2 d2 c2 found v3 c3,
      step ac2 v2 d2 c2 = some (some found, v3, c3) →
      FoundFrom dist coins found ac2)
    (ac : Aircraft) (depth : ℕ) :
    ∀ (l : List Airport) (v : Finset String) (ctr : ℕ)
      (found : Airport) (v3 : Finset String) (c3 : ℕ),
      emergencyDfsLoop dist coins step ac depth l v ctr
        = some (some found, v3, c3) →
      FoundFrom dist coins found ac := by
  intro l
  induction l with
  | nil =>
    intro v ctr found v3 c3 heq
    simp [emergencyDfsLoop] at heq
  | cons a rest ih =>
    intro v ctr found v3 c3 heq
    by_cases hmem : a.id ∈ v
    · rw [show emergencyDfsLoop dist coins step ac depth (a :: rest) v ctr
          = emergencyDfsLoop dist coins step ac depth rest v ctr from by
        simp [emergencyDfsLoop, hmem]] at heq
      exact ih v ctr found v3 c3 heq
    · by_cases hsuit :
          is_suitable_for_emergency dist (coins ctr) a ac = true
      · simp only [emergencyDfsLoop, if_neg hmem, if_pos hsuit,
          Option.some.injEq, Prod.mk.injEq] at heq
        obtain ⟨h1, _, _⟩ := heq
        exact ⟨ac, ctr, h1 ▸ hsuit, le_refl _⟩
      · by_cases hfuel : (midpointAircraft dist ac a).fuel_remaining ≤ 0
        · rw [show emergencyDfsLoop dist coins step ac depth (a :: rest) v ctr
              = emergencyDfsLoop dist coins step ac depth rest
                  (insert a.id v) (ctr + 1) from by
            simp [emergencyDfsLoop, hmem, hsuit, hfuel]] at heq
          exact ih _ _ found v3 c3 heq
        · cases hstepval : step (midpointAircraft dist ac a) (insert a.id v)
              (depth + 1) (ctr + 1) with
          | none =>
            rw [show emergencyDfsLoop dist coins step ac depth (a :: rest)
                  v ctr = none from by
              simp [emergencyDfsLoop, hmem, hsuit, hfuel, hstepval]] at heq
            exact absurd heq (by simp)
          | some r1 =>
            obtain ⟨res1, v2, c2⟩ := r1
            cases res1 with
            | some found2 =>
              rw [show emergencyDfsLoop dist coins step ac depth (a :: rest)
                    v ctr = some (some found2, v2, c2) from by
                simp [emergencyDfsLoop, hmem, hsuit, hfuel, hstepval]] at heq
              simp only [Option.some.injEq, Prod.mk.injEq] at heq
              obtain ⟨h1, _, _⟩ := heq
              obtain ⟨ac', k, hs, hle⟩ := hstep _ _ _ _ _ _ _ hstepval
              exact ⟨ac', k, h1 ▸ hs,
                le_trans hle (midpointAircraft_fuel dist hd ac a)⟩
            | none =>
              rw [show emergencyDfsLoop dist coins step ac depth (a :: rest)
                    v ctr = emergencyDfsLoop dist coins step ac depth rest
                      v2 c2 from by
                simp [emergencyDfsLoop, hmem, hsuit, hfuel, hstepval]] at heq
              exact ih v2 c2 found v3 c3 heq

theorem emergencyDfsAux_sound (dist : Position → Position → ℚ)
    (coins : ℕ → Bool) (hd : ∀ p q, 0 ≤ dist p q)
    (airports : List Airport) (max_depth : Option ℕ) :
    ∀ (gas : ℕ) (ac : Aircraft) (v : Finset String) (depth ctr : ℕ)
      (found : Airport) (v3 : Finset String) (c3 : ℕ),
      emergencyDfsAux dist coins airports max_depth gas ac v depth ctr
        = some (some found, v3, c3) →
      FoundFrom dist coins found ac := by
  intro gas
  induction gas with
  | zero =>
    intro ac v depth ctr found v3 c3 heq
    simp [emergencyDfsAux] at heq
  | succ gas ih =>
    intro ac v depth ctr found v3 c3 heq
    have hloop := emergencyDfsLoop_sound dist coins hd
      (emergencyDfsAux dist coins airports max_depth gas)
      (fun ac2 v2 d2 c2 found2 v4 c4 h2 =>
        ih ac2 v2 d2 c2 found2 v4 c4 h2) ac depth
    cases max_depth with
    | none =>
      simp only [emergencyDfsAux] at heq
      exact hloop _ _ _ found v3 c3 heq
    | some md =>
      by_cases hdp : md ≤ depth
      · simp [emergencyDfsAux, hdp] at heq
      · simp only [emergencyDfsAux, if_neg hdp] at heq
        exact hloop _ _ _ found v3 c3 heq

end Dfs

/-- C3: whenever emergency_landing_dfs returns an airport rather than
    None, some aircraft snapshot of the search with no more fuel than the
    original aircraft passed is_suitable_for_emergency for that airport,
    and in particular the distance from that snapshot's position to the
    airport is at most the snapshot's remaining fuel; an airport out of
    fuel range of its evaluating snapshot is never returned.  Stated for
    every nonnegative distance function and every random stream. -/
theorem claim_C3 (dist : Dfs.Position → Dfs.Position → ℚ)
    (coins : ℕ → Bool) (ac : Dfs.Aircraft) (airports : List Dfs.Airport)
    (max_depth : Option ℕ) (a : Dfs.Airport)
    (hd : ∀ p q, 0 ≤ dist p q)
    (h : Dfs.emergency_landing_dfs dist coins ac airports max_depth
      = some (some a)) :
    ∃ (ac' : Dfs.Aircraft) (k : ℕ),
      Dfs.is_suitable_for_emergency dist (coins k) a ac' = true
      ∧ dist ac'.position a.position ≤ ac'.fuel_remaining
      ∧ ac'.fuel_remaining ≤ ac.fuel_remaining := by
  unfold Dfs.emergency_landing_dfs at h
  rw [Option.map_eq_some'] at h
  obtain ⟨r, hr, hr1⟩ := h
  obtain ⟨res, v3, c3⟩ := r
  simp only at hr1
  subst hr1
  obtain ⟨ac', k, hs, hle⟩ := Dfs.emergencyDfsAux_sound dist coins hd
    airports max_depth _ ac ∅ 0 0 a v3 c3 hr
  exact ⟨ac', k, hs, Dfs.is_suitable_can_reach dist (coins k) a ac' hs, hle⟩

/-- Witness for C3: a concrete scenario with the taxicab distance, the
    all-false random stream, and a single reachable suitable airport. -/
theorem claim_C3_witness :
    ∃ (ac' : Dfs.Aircraft) (k : ℕ),
      Dfs.is_suitable_for_emergency Dfs.taxiDist false Dfs.exampleAirport
          ac' = true
      ∧ Dfs.taxiDist ac'.position Dfs.exampleAirport.position
          ≤ ac'.fuel_remaining
      ∧ ac'.fuel_remaining ≤ Dfs.exampleAircraft.fuel_remaining :=
  claim_C3 Dfs.taxiDist (fun _ => false) Dfs.exampleAircraft
    [Dfs.exampleAirport] none Dfs.exampleAirport
    (fun p q => by unfold Dfs.taxiDist; positivity)
    (by
      norm_num [Dfs.emergency_landing_dfs, Dfs.emergencyDfsAux,
        Dfs.emergencyDfsLoop, Dfs.airportIds, Dfs.sort_by_distance,
        Dfs.is_suitable_for_emergency, Dfs.can_reach_airport,
        Dfs.meets_minimum_requirements, Dfs.requiredRunwayLength,
        Dfs.taxiDist, Dfs.exampleAircraft, Dfs.exampleAirport,
        Dfs.strLower, List.insertionSort]
      refine ⟨{"DEL"}, 1, ?_⟩
      decide)

/-- C9: with no declared emergency, is_suitable_for_emergency accepts
    exactly the airports that are reachable on remaining fuel and meet
    the runway and weather minimums, for every outcome of the randomized
    decoy verification (which is therefore never run, even for a decoy
    airport), and consequently emergency_landing_dfs is independent of
    the random stream. -/
theorem claim_C9 (dist : Dfs.Position → Dfs.Position → ℚ) (a : Dfs.Airport)
    (ac : Dfs.Aircraft) (h : ac.emergency_status = none) :
    (∀ coin : Bool, Dfs.is_suitable_for_emergency dist coin a ac
        = (Dfs.can_reach_airport dist ac a
            && Dfs.meets_minimum_requirements a ac))
    ∧ ∀ (coins1 coins2 : ℕ → Bool) (airports : List Dfs.Airport)
        (max_depth : Option ℕ),
        Dfs.emergency_landing_dfs dist coins1 ac airports max_depth
          = Dfs.emergency_landing_dfs dist coins2 ac airports max_depth := by
  refine ⟨fun coin => Dfs.is_suitable_no_emergency dist coin a ac h, ?_⟩
  intro coins1 coins2 airports max_depth
  unfold Dfs.emergency_landing_dfs
  rw [Dfs.emergencyDfsAux_coins_congr dist coins1 coins2 airports max_depth
    _ ac ∅ 0 0 h]

/-- Witness for C9: the no-emergency suitability reduction at a concrete
    airport, aircraft and verification outcome. -/
theorem claim_C9_witness :
    Dfs.is_suitable_for_emergency Dfs.taxiDist true Dfs.exampleAirport
        Dfs.exampleAircraft
      = (Dfs.can_reach_airport Dfs.taxiDist Dfs.exampleAircraft
            Dfs.exampleAirport
          && Dfs.meets_minimum_requirements Dfs.exampleAirport
              Dfs.exampleAircraft) :=
  (claim_C9 Dfs.taxiDist Dfs.exampleAirport Dfs.exampleAircraft rfl).1 true

/-- C10: emergency_landing_dfs terminates on every finite airport list
    even with max_depth = None: gas equal to the number of distinct
    airport identifiers plus one always suffices, because every recursive
    call is preceded by inserting a previously unvisited airport
    identifier into the visited set shared across all branches.  The
    embedded search therefore always completes with a result instead of
    exhausting its gas. -/
theorem claim_C10 (dist : Dfs.Position → Dfs.Position → ℚ)
    (coins : ℕ → Bool) (ac : Dfs.Aircraft) (airports : List Dfs.Airport) :
    ∃ result : Option Dfs.Airport,
      Dfs.emergency_landing_dfs dist coins ac airports none = some result := by
  obtain ⟨r, hr, _⟩ := Dfs.emergencyDfsAux_total dist coins airports none
    ((Dfs.airportIds airports).card + 1) ac ∅ 0 0
    (by rw [Finset.sdiff_empty]; omega)
  exact ⟨r.1, by unfold Dfs.emergency_landing_dfs; rw [hr]; rfl⟩

/-- C4: after any add_route(a, b, distance, fuel_efficiency), airport b
    appears in the adjacency list of a and a in that of b, and the two
    directed records carry identical distance, fuel efficiency and base
    congestion; moreover after any sequence of add_airport / add_route
    operations starting from a fresh network, every stored edge record has
    a mirror record with identical attributes. -/
theorem claim_C4 :
    (∀ (net : Bfs.AirportNetwork) (a b : String) (dist eff cong : ℚ),
        (b, dist, eff, cong) ∈
            Bfs.routesOf (Bfs.add_route net a b dist eff cong) a ∧
        (a, dist, eff, cong) ∈
            Bfs.routesOf (Bfs.add_route net a b dist eff cong) b)
    ∧ ∀ ops : List Bfs.NetOp, Bfs.RoutesSymmetric (Bfs.buildNetwork ops) := by
  refine ⟨fun net a b dist eff cong => ?_, Bfs.routesSymmetric_buildNetwork⟩
  constructor <;> rw [Bfs.routesOf_add_route] <;> simp

/-- C5 counterexample: in a network in which the directed pair (A, B) is
    already congested, setting the congestion flag on (A, B) to true and
    then back to false does not restore the filtered neighbor set of A to
    its original value, refuting the claim as stated for arbitrary
    starting states. -/
theorem claim_C5_counterexample :
    Bfs.get_neighbors
        (Bfs.update_congestion
          (Bfs.update_congestion Bfs.exampleNetCongested "A" "B" true)
          "A" "B" false)
        "A" true false
      ≠ Bfs.get_neighbors Bfs.exampleNetCongested "A" true false := by
  decide

/-- C5 (amended): in any graph state in which neither directed pair (a,b),
    (b,a) is already flagged, setting the congestion (resp. weather) flag
    on (a,b) to true excludes b from the filtered neighbor set of a and a
    from that of b, and setting the same flag back to false restores the
    filtered neighbor set to its original value. -/
theorem claim_C5 (net : Bfs.AirportNetwork) (a b : String) (prio : Bool)
    (hc1 : (a, b) ∉ net.congested_routes)
    (hc2 : (b, a) ∉ net.congested_routes)
    (hw1 : (a, b) ∉ net.weather_affected_routes)
    (hw2 : (b, a) ∉ net.weather_affected_routes) :
    (∀ r ∈ Bfs.get_neighbors (Bfs.update_congestion net a b true) a true prio,
        r.1 ≠ b)
    ∧ (∀ r ∈ Bfs.get_neighbors (Bfs.update_congestion net a b true) b true prio,
        r.1 ≠ a)
    ∧ Bfs.get_neighbors
        (Bfs.update_congestion (Bfs.update_congestion net a b true) a b false)
        a true prio = Bfs.get_neighbors net a true prio
    ∧ (∀ r ∈ Bfs.get_neighbors (Bfs.update_weather net a b true) a true prio,
        r.1 ≠ b)
    ∧ (∀ r ∈ Bfs.get_neighbors (Bfs.update_weather net a b true) b true prio,
        r.1 ≠ a)
    ∧ Bfs.get_neighbors
        (Bfs.update_weather (Bfs.update_weather net a b true) a b false)
        a true prio = Bfs.get_neighbors net a true prio := by
  refine ⟨?_, ?_, ?_, ?_, ?_, ?_⟩
  · intro r hr hrb
    exact Bfs.congestion_excludes net a b a prio r hr (Or.inl (by rw [hrb]))
  · intro r hr hra
    exact Bfs.congestion_excludes net a b b prio r hr (Or.inr (by rw [hra]))
  · rw [Bfs.update_congestion_roundtrip net a b hc1 hc2]
  · intro r hr hrb
    exact Bfs.weather_excludes net a b a prio r hr (Or.inl (by rw [hrb]))
  · intro r hr hra
    exact Bfs.weather_excludes net a b b prio r hr (Or.inr (by rw [hra]))
  · rw [Bfs.update_weather_roundtrip net a b hw1 hw2]

/-- C7: depth_limited_search returns the empty list of viable paths
    whenever no airport lies within the maximum range (three cruising
    hours at the given speed) of the start position while also meeting the
    minimum runway length for the aircraft class.  Stated for every
    distance function and every random stream. -/
theorem claim_C7 (cdist : ℚ → ℚ → ℚ → ℚ → ℚ) (rng : ℕ → ℚ)
    (p : Dls.FlightPathPlanner) (start_lat start_lon start_alt : ℚ)
    (aircraft_type : String) (aircraft_speed : ℚ) (max_depth : ℕ)
    (altitude_constraint : ℚ)
    (h : ∀ a ∈ Dls.airportsValues p,
      cdist start_lat start_lon a.lat a.lon ≤ aircraft_speed * 3 →
      a.runway_length < Dls.minRunwayFor aircraft_type) :
    Dls.depth_limited_search cdist rng p start_lat start_lon start_alt
      aircraft_type aircraft_speed max_depth altitude_constraint = [] := by
  have hempty := Dls.suitable_airports_nil cdist p start_lat start_lon
    aircraft_type aircraft_speed h
  simp [Dls.depth_limited_search, hempty]

/-- Witness for C7: a concrete planner whose only airport is in range but
    has too short a runway for a large aircraft. -/
theorem claim_C7_witness :
    Dls.depth_limited_search (fun _ _ _ _ => 0) (fun _ => 0)
      Dls.examplePlanner 23 72 20000 "large" 300 4 8000 = [] :=
  claim_C7 (fun _ _ _ _ => 0) (fun _ => 0) Dls.examplePlanner 23 72 20000
    "large" 300 4 8000
    (by
      intro a ha _
      simp only [Dls.airportsValues, Dls.examplePlanner, List.map_cons,
        List.map_nil, List.mem_singleton] at ha
      subst ha
      unfold Dls.minRunwayFor
      decide)

/-- C8: the estimated travel time is the base time (distance / speed)
    multiplied by the maximum — not the product or sum — of the delay
    factors of the registered traffic zones (with 1.0 as the floor, which
    is also what an out-of-band zone contributes); within a zone's
    altitude band the delay factor is at least 1.0, grows with the
    congestion level and shrinks as the altitude rises. -/
theorem claim_C8 (p : Dls.FlightPathPlanner)
    (distance aircraft_speed altitude : ℚ) :
    (∃ M : ℚ, Dls.estimate_travel_time p distance aircraft_speed altitude
        = (distance / aircraft_speed) * M
      ∧ 1 ≤ M
      ∧ (∀ z ∈ p.traffic_zones, Dls.get_delay_factor z altitude ≤ M)
      ∧ (M = 1 ∨ ∃ z ∈ p.traffic_zones, M = Dls.get_delay_factor z altitude))
    ∧ (∀ z : Dls.AirTrafficZone,
        altitude < z.min_altitude ∨ z.max_altitude < altitude →
        Dls.get_delay_factor z altitude = 1)
    ∧ (∀ z : Dls.AirTrafficZone, 0 ≤ z.congestion_level →
        z.min_altitude ≤ altitude → altitude ≤ z.max_altitude →
        0 < z.max_altitude → 1 ≤ Dls.get_delay_factor z altitude)
    ∧ (∀ (n1 n2 : String) (ar1 ar2 : (ℚ × ℚ) × (ℚ × ℚ)) (c1 c2 mn mx : ℚ),
        0 ≤ c1 → c1 ≤ c2 → mn ≤ altitude → altitude ≤ mx → 0 < mx →
        Dls.get_delay_factor ⟨n1, ar1, c1, mn, mx⟩ altitude
          ≤ Dls.get_delay_factor ⟨n2, ar2, c2, mn, mx⟩ altitude)
    ∧ (∀ (n : String) (ar : (ℚ × ℚ) × (ℚ × ℚ)) (c mn mx alt1 alt2 : ℚ),
        0 ≤ c → mn ≤ alt1 → alt1 ≤ alt2 → alt2 ≤ mx → 0 < mx →
        Dls.get_delay_factor ⟨n, ar, c, mn, mx⟩ alt2
          ≤ Dls.get_delay_factor ⟨n, ar, c, mn, mx⟩ alt1) := by
  refine ⟨?_, ?_, ?_, ?_, ?_⟩
  · refine ⟨(p.traffic_zones.map
        (fun z => Dls.get_delay_factor z altitude)).foldl max 1,
      ?_, ?_, ?_, ?_⟩
    · simp [Dls.estimate_travel_time, List.foldl_map]
    · exact Dls.foldl_max_init_le _ 1
    · intro z hz
      exact Dls.foldl_max_mem_le _ 1 _ (List.mem_map_of_mem _ hz)
    · rcases Dls.foldl_max_cases
          (p.traffic_zones.map (fun z => Dls.get_delay_factor z altitude))
          1 with hcase | hcase
      · exact Or.inl hcase
      · rw [List.mem_map] at hcase
        obtain ⟨z, hz, hzz⟩ := hcase
        exact Or.inr ⟨z, hz, hzz.symm⟩
  · intro z hz
    unfold Dls.get_delay_factor
    rw [if_pos]
    rcases hz with hz | hz
    · exact Or.inl hz
    · exact Or.inr hz
  · intro z hc h1 h2 h3
    exact Dls.get_delay_factor_ge_one z altitude hc h1 h2 h3
  · intro n1 n2 ar1 ar2 c1 c2 mn mx hc1 hcc hmn hmx hpos
    rw [Dls.get_delay_factor_in_band _ altitude hmn hmx,
      Dls.get_delay_factor_in_band _ altitude hmn hmx]
    have hA := Dls.altitude_factor_bounds altitude mx hmx hpos
    simp only
    nlinarith
  · intro n ar c mn mx alt1 alt2 hc hmn h12 hmx hpos
    rw [Dls.get_delay_factor_in_band _ alt2 (le_trans hmn h12) hmx,
      Dls.get_delay_factor_in_band _ alt1 hmn (le_trans h12 hmx)]
    have hd : alt1 / mx ≤ alt2 / mx := by gcongr
    simp only
    nlinarith

/-- Witness for C8: the floor property of the delay factor at a concrete
    in-band zone and altitude. -/
theorem claim_C8_witness :
    1 ≤ Dls.get_delay_factor
        ⟨"Delhi TMA", ((28, 76.5), (29, 77.5)), 9, 0, 15000⟩ 8000 :=
  (claim_C8 Dls.examplePlanner 100 300 8000).2.2.1
    ⟨"Delhi TMA", ((28, 76.5), (29, 77.5)), 9, 0, 15000⟩
    (by norm_num) (by norm_num) (by norm_num) (by norm_num)

/-- Witness for the amended C5: on the concrete clean two-airport network
    the congestion round trip restores the filtered neighbor set of A. -/
theorem claim_C5_witness :
    Bfs.get_neighbors
        (Bfs.update_congestion
          (Bfs.update_congestion Bfs.exampleNet "A" "B" true) "A" "B" false)
        "A" true false = Bfs.get_neighbors Bfs.exampleNet "A" true false :=
  (claim_C5 Bfs.exampleNet "A" "B" false (by decide) (by decide) (by decide)
    (by decide)).2.2.1

/-- C1: bfs_shortest_path returns the defined no-path sentinel — the
    source triple (None, float(inf), float(inf)), modelled as none —
    whenever start or goal is not a known airport, or goal is unreachable
    from start through the active edge filter. -/
theorem claim_C1 (net : Bfs.AirportNetwork) (start goal : String)
    (avoid prio : Bool)
    (h : (alookup net.airports start).isNone = true
      ∨ (alookup net.airports goal).isNone = true
      ∨ ∀ n, ¬ Bfs.Walk net avoid start goal n) :
    Bfs.bfs_shortest_path net start goal avoid prio = some none := by
  unfold Bfs.bfs_shortest_path
  by_cases hk : (alookup net.airports start).isNone = true
      ∨ (alookup net.airports goal).isNone = true
  · rw [if_pos hk]
  · rw [if_neg hk]
    have hunreach : ∀ n, ¬ Bfs.Walk net avoid start goal n := by
      rcases h with h | h | h
      · exact absurd (Or.inl h) hk
      · exact absurd (Or.inr h) hk
      · exact h
    obtain ⟨r, hr⟩ := Bfs.bfsAux_total net goal avoid prio (Bfs.bfsGas net)
      [⟨start, [start], 0, 0⟩] {start} (Bfs.bfsGas_sufficient net start)
    cases r with
    | none => exact hr
    | some t =>
      obtain ⟨p, d, fu⟩ := t
      have hsound := Bfs.bfsAux_sound_found net avoid prio start goal _ _ _
        p d fu hr (Bfs.bfsInv_init net avoid prio start goal)
      exact absurd hsound.2.2.1 (hunreach _)

/-- Witness for C1 at a concrete network with an unknown start airport. -/
theorem claim_C1_witness :
    Bfs.bfs_shortest_path Bfs.exampleNet "C" "B" true false = some none :=
  claim_C1 Bfs.exampleNet "C" "B" true false (Or.inl (by decide))

/-- C2: on a graph whose stored edges all have distance 1, with start and
    goal known and goal reachable through the active edge filter,
    bfs_shortest_path returns a path whose number of edges (path length
    minus one) is the least number of edges of any walk from start to goal
    under that filter — BFS is hop-optimal because nodes are marked
    visited when first enqueued and the frontier is level ordered. -/
theorem claim_C2 (net : Bfs.AirportNetwork) (start goal : String)
    (avoid prio : Bool)
    (huni : ∀ q ∈ net.routes, ∀ r ∈ q.2, r.2.1 = (1 : ℚ))
    (hs : (alookup net.airports start).isSome = true)
    (hg : (alookup net.airports goal).isSome = true)
    (hreach : ∃ n, Bfs.Walk net avoid start goal n) :
    ∃ (p : List String) (d fu : ℚ),
      Bfs.bfs_shortest_path net start goal avoid prio
          = some (some (p, d, fu))
      ∧ IsLeast {n : ℕ | Bfs.Walk net avoid start goal n}
          (p.length - 1) := by
  unfold Bfs.bfs_shortest_path
  have hk : ¬((alookup net.airports start).isNone = true
      ∨ (alookup net.airports goal).isNone = true) := by
    rintro (hh | hh)
    · rw [Option.isNone_iff_eq_none] at hh
      rw [hh] at hs
      simp at hs
    · rw [Option.isNone_iff_eq_none] at hh
      rw [hh] at hg
      simp at hg
  rw [if_neg hk]
  obtain ⟨r, hr⟩ := Bfs.bfsAux_total net goal avoid prio (Bfs.bfsGas net)
    [⟨start, [start], 0, 0⟩] {start} (Bfs.bfsGas_sufficient net start)
  cases r with
  | none =>
    obtain ⟨n, hw⟩ := hreach
    exact absurd hw (Bfs.bfsAux_sound_none net avoid prio start goal _ _ _
      hr (Bfs.bfsInv_init net avoid prio start goal) n)
  | some t =>
    obtain ⟨p, d, fu⟩ := t
    have hsound := Bfs.bfsAux_sound_found net avoid prio start goal _ _ _
      p d fu hr (Bfs.bfsInv_init net avoid prio start goal)
    exact ⟨p, d, fu, hr, hsound.2.2.1, fun n hn => hsound.2.2.2.1 n hn⟩

/-- Witness for C2: the uniform two-airport network, start A, goal B. -/
theorem claim_C2_witness :
    ∃ (p : List String) (d fu : ℚ),
      Bfs.bfs_shortest_path Bfs.exampleNet "A" "B" true false
          = some (some (p, d, fu))
      ∧ IsLeast {n : ℕ | Bfs.Walk Bfs.exampleNet true "A" "B" n}
          (p.length - 1) :=
  claim_C2 Bfs.exampleNet "A" "B" true false (by decide) (by decide)
    (by decide) ⟨1, Bfs.Walk.step (by decide) (Bfs.Walk.refl "B")⟩

/-- C6: for every path returned by bfs_shortest_path, the reported
    cumulative distance and fuel follow an edge-record chain along the
    path: the distance is the sum of the records' distances and the fuel
    is the sum of fuelUsed distance efficiency = distance * (11 -
    efficiency) / 10 per edge; moreover for a fixed nonnegative distance
    the per-edge fuel cost is smallest at efficiency 10 and largest at
    efficiency 1. -/
theorem claim_C6 (net : Bfs.AirportNetwork) (start goal : String)
    (avoid prio : Bool) (p : List String) (d fu : ℚ)
    (h : Bfs.bfs_shortest_path net start goal avoid prio
      = some (some (p, d, fu))) :
    Bfs.RouteChain net p d fu
    ∧ ∀ dist eff : ℚ, 0 ≤ dist → 1 ≤ eff → eff ≤ 10 →
        Bfs.fuelUsed dist 10 ≤ Bfs.fuelUsed dist eff
        ∧ Bfs.fuelUsed dist eff ≤ Bfs.fuelUsed dist 1 := by
  constructor
  · unfold Bfs.bfs_shortest_path at h
    by_cases hk : (alookup net.airports start).isNone = true
        ∨ (alookup net.airports goal).isNone = true
    · rw [if_pos hk] at h
      simp at h
    · rw [if_neg hk] at h
      exact (Bfs.bfsAux_sound_found net avoid prio start goal _ _ _ p d fu
        h (Bfs.bfsInv_init net avoid prio start goal)).2.2.2.2
  · intro dist eff h0 h1 h10
    unfold Bfs.fuelUsed
    constructor <;> nlinarith

/-- Witness for C6 on the concrete two-airport network: the returned
    totals follow the single stored edge (distance 1, efficiency 5). -/
theorem claim_C6_witness :
    Bfs.RouteChain Bfs.exampleNet ["A", "B"] 1 (3/5)
    ∧ ∀ dist eff : ℚ, 0 ≤ dist → 1 ≤ eff → eff ≤ 10 →
        Bfs.fuelUsed dist 10 ≤ Bfs.fuelUsed dist eff
        ∧ Bfs.fuelUsed dist eff ≤ Bfs.fuelUsed dist 1 :=
  claim_C6 Bfs.exampleNet "A" "B" true false ["A", "B"] 1 (3/5) (by
    have hgas : Bfs.bfsGas Bfs.exampleNet = 4 := by decide
    unfold Bfs.bfs_shortest_path
    rw [if_neg (by decide), hgas]
    norm_num [Bfs.bfsAux, Bfs.processNeighbors, Bfs.get_neighbors,
      Bfs.routesOf, Bfs.exampleNet, Bfs.add_route, Bfs.add_airport,
      Bfs.emptyNetwork, Bfs.ensureKey, Bfs.fuelUsed, Bfs.hazardous,
      alookup, hasKey, dictSet, dictModify]
    decide)

end AiATC
